import Mathlib

/-!
Verification of the syntax parser and recursive verbaliser for OWL logical
expressions (`src/deeponto/onto/verbalisation.py`).

The development shallowly embeds the Python module:

* `RangeNode` (the interval-tree node) becomes the mutual inductive
  `RangeNode` / `RangeForest`; Python's `math.inf` end of the root node is
  modelled by the extended integer type `XInt`.
* `RangeNode.__gt__`, `RangeNode.insert_child` and
  `OntologySyntaxParser.parse_by_parentheses` become the executable functions
  `rangeGt`, `RangeNode.insertChild` and `parseByParentheses`; Python
  exceptions (`RuntimeError`, `IndexError`, ...) are modelled with
  `Except String`.
* The recursive verbaliser (`OntologyVerbaliser`) becomes the fuel-indexed
  functions `verbaliseClassExpression`, `verbaliseRestriction`,
  `verbaliseJunction`, ...; Python recursion is unbounded, so a fuel argument
  is added, with exhaustion reported as an error.
-/

/-! ## Extended integers: `int` extended with `math.inf` -/

inductive XInt where
  | fin : Int → XInt
  | inf : XInt
deriving DecidableEq, Repr

/-- `a <= b` on Python numbers where `b` may be `math.inf`. -/
def XInt.leb : XInt → XInt → Bool
  | _, .inf => true
  | .inf, .fin _ => false
  | .fin a, .fin b => decide (a ≤ b)

/-- `a < b` on Python numbers where either side may be `math.inf`. -/
def XInt.ltb : XInt → XInt → Bool
  | .inf, _ => false
  | .fin _, .inf => true
  | .fin a, .fin b => decide (a < b)

/-- Display as Python would in an f-string: `str(math.inf) = "inf"`. -/
def XInt.str : XInt → String
  | .fin a => toString a
  | .inf => "inf"

/-! ## Ranges `[start, end)` -/

/-- The `(start, end)` pair carried by a `RangeNode`.  `start` may become
negative during parsing (Python allows negative offsets from `start - 5`),
and `end` is `math.inf` for the root. -/
structure Rg where
  start : Int
  stop : XInt
deriving DecidableEq, Repr

/-- `a` fully contains `b` (non-strict): `a.start <= b.start and b.end <= a.end`. -/
def Rg.containsB (a b : Rg) : Bool :=
  decide (a.start ≤ b.start) && XInt.leb b.stop a.stop

/-- The intervals `[a.start, a.end)` and `[b.start, b.end)` do not intersect. -/
def Rg.disjointB (a b : Rg) : Bool :=
  XInt.leb b.stop (.fin a.start) || XInt.leb a.stop (.fin b.start)

/-- One of the three permitted relations between node intervals holds:
contains, contained-by, or disjoint. -/
def Rg.nestedOrDisjointB (a b : Rg) : Bool :=
  a.containsB b || b.containsB a || a.disjointB b

/-- Partial overlap in the sense of the specification: the intervals
intersect but neither contains the other. -/
def Rg.overlapViolB (a b : Rg) : Bool :=
  !(a.nestedOrDisjointB b)

/-- The interval is non-empty: `start < end`. -/
def Rg.nonemptyB (a : Rg) : Bool :=
  XInt.ltb (.fin a.start) a.stop

/-- Result of `RangeNode.__gt__`: Python returns `True`, `False`, or the
(truthy) string `"irrelevant"`. -/
inductive GtRes where
  | isTrue : GtRes
  | isFalse : GtRes
  | irrelevant : GtRes
deriving DecidableEq, Repr

/-- `RangeNode.__gt__` (verbalisation.py, lines 802-824).

* first branch: `self.start <= other.start and other.end <= self.end` → `True`
* second branch: `other.start <= self.start and self.end <= other.end` → `False`
* third branch: `other.end < self.start or self.end < other.start` → `"irrelevant"`
* otherwise `RuntimeError("Compared ranges have a partial overlap.")`. -/
def rangeGt (self other : Rg) : Except String GtRes :=
  if self.containsB other then
    .ok .isTrue
  else if other.containsB self then
    .ok .isFalse
  else if XInt.ltb other.stop (.fin self.start) || XInt.ltb self.stop (.fin other.start) then
    .ok .irrelevant
  else
    .error "Compared ranges have a partial overlap."

/-! ## The range tree -/

mutual
/-- `RangeNode` (verbalisation.py, lines 777-882): an interval `[start, end)`
over the abbreviated text, the display name (already formatted as
`{name}@[{start}:{end}]` by `__init__`), the substring `text` the node spans,
the `is_iri` flag set by the parser, and an ordered list of children. -/
inductive RangeNode where
  | node : Rg → String → String → Bool → RangeForest → RangeNode
deriving DecidableEq

/-- Ordered children of a `RangeNode` (the anytree `children` tuple). -/
inductive RangeForest where
  | nil : RangeForest
  | cons : RangeNode → RangeForest → RangeForest
deriving DecidableEq
end

def RangeNode.rg : RangeNode → Rg
  | .node r _ _ _ _ => r

def RangeNode.name : RangeNode → String
  | .node _ n _ _ _ => n

def RangeNode.text : RangeNode → String
  | .node _ _ t _ _ => t

def RangeNode.isIri : RangeNode → Bool
  | .node _ _ _ i _ => i

def RangeNode.childrenF : RangeNode → RangeForest
  | .node _ _ _ _ cs => cs

def RangeForest.toList : RangeForest → List RangeNode
  | .nil => []
  | .cons t ts => t :: ts.toList

def RangeForest.ofList : List RangeNode → RangeForest
  | [] => .nil
  | t :: ts => .cons t (RangeForest.ofList ts)

def RangeForest.append : RangeForest → RangeForest → RangeForest
  | .nil, g => g
  | .cons t ts, g => .cons t (ts.append g)

def RangeNode.children (t : RangeNode) : List RangeNode :=
  t.childrenF.toList

/-- anytree `ch.parent = node`: detach `ch` from its old parent and append it
at the end of `node`'s children. -/
def RangeNode.appendChild : RangeNode → RangeNode → RangeNode
  | .node r n tx i cs, ch => .node r n tx i (cs.append (.cons ch .nil))

/-- `RangeNode.__init__` (lines 786-795): rejects `start >= end` with
`RuntimeError("invalid start and end positions ...")`, then formats the
display name as `f"{name}@[{start}:{end}]"` (empty name falls back to
`"Root"`). -/
def mkRangeNode (start : Int) (stop : XInt) (name : String) (text : String)
    (isIri : Bool) : Except String RangeNode :=
  if XInt.leb stop (.fin start) then
    .error "invalid start and end positions ..."
  else
    let base := if name = "" then "Root" else name
    .ok (.node ⟨start, stop⟩
      (base ++ "@[" ++ toString start ++ ":" ++ stop.str ++ "]") text isIri .nil)

/-- Stable insertion used by `sort_by_start`: an element goes before the
first existing element with a strictly larger start (Python's `sorted` is
stable). -/
def insertByStart (x : RangeNode) : List RangeNode → List RangeNode
  | [] => [x]
  | y :: ys =>
    if decide (x.rg.start ≤ y.rg.start) then x :: y :: ys else y :: insertByStart x ys

/-- `RangeNode.sort_by_start` (lines 826-830): stable sort of sibling nodes
by their starting position. -/
def sortByStart (l : List RangeNode) : List RangeNode :=
  l.foldr insertByStart []

def sortByStartF (f : RangeForest) : RangeForest :=
  .ofList (sortByStart f.toList)

mutual
/-- Executable node count, used as recursion fuel for `insertChild` (it
always exceeds the tree depth). -/
def RangeNode.sizeN : RangeNode → Nat
  | .node _ _ _ _ cs => 1 + cs.sizeN

def RangeForest.sizeN : RangeForest → Nat
  | .nil => 0
  | .cons t ts => t.sizeN + ts.sizeN
end

/-- The `for ch in self.children` loop of `insert_child` (lines 843-859),
parameterised by the recursive insertion `f` used when a child contains the
candidate.  Returns `(inserted, remaining-children, candidate)`, the
candidate having accumulated every reparented child. -/
def insertLoopWith (f : RangeNode → RangeNode → Except String RangeNode) :
    RangeNode → RangeForest → Except String (Bool × RangeForest × RangeNode)
  | c, .nil => .ok (false, .nil, c)
  | c, .cons ch rest =>
    match rangeGt ch.rg c.rg with
    | .error e => .error e
    | .ok .isTrue =>
      match f ch c with
      | .error e => .error e
      | .ok ch' => .ok (true, .cons ch' rest, c)
    | .ok _ =>
      match rangeGt c.rg ch.rg with
      | .error e => .error e
      | .ok .isTrue => insertLoopWith f (c.appendChild ch) rest
      | .ok _ =>
        match insertLoopWith f c rest with
        | .error e => .error e
        | .ok (ins, out, c') => .ok (ins, .cons ch out, c')

/-- `RangeNode.insert_child` (lines 832-862), fuel-indexed (Python's
recursion is unbounded; `RangeNode.insertChild` below supplies fuel
`sizeOf t`, which always exceeds the recursion depth since each recursive
step descends into a strictly smaller child).

* `if node > self: raise RuntimeError("invalid child node")` — both `True`
  and the truthy string `"irrelevant"` trigger the raise;
* the duplicate check `node.start == self.start and node.end == self.end`
  (which returns without inserting);
* if there are no children, attach the candidate directly;
* otherwise the child loop: recurse into a child that contains the candidate
  (and stop), reparent every child the candidate contains, and finally
  append-and-re-sort if the candidate was not placed. -/
def insertChildFuel : Nat → RangeNode → RangeNode → Except String RangeNode
  | 0, _, _ => .error "recursion fuel exhausted"
  | fuel + 1, .node rg nm tx ii cs, c =>
    match rangeGt c.rg rg with
    | .error e => .error e
    | .ok .isTrue => .error "invalid child node"
    | .ok .irrelevant => .error "invalid child node"
    | .ok .isFalse =>
      if c.rg.start = rg.start ∧ c.rg.stop = rg.stop then
        .ok (.node rg nm tx ii cs)
      else
        match cs with
        | .nil => .ok (.node rg nm tx ii (.cons c .nil))
        | .cons ch rest =>
          match insertLoopWith (insertChildFuel fuel) c (.cons ch rest) with
          | .error e => .error e
          | .ok (true, newCs, _) => .ok (.node rg nm tx ii newCs)
          | .ok (false, kept, c') =>
            .ok (.node rg nm tx ii (sortByStartF (kept.append (.cons c' .nil))))

def RangeNode.insertChild (t c : RangeNode) : Except String RangeNode :=
  insertChildFuel t.sizeN t c

mutual
/-- All interval ranges occurring in the tree (the node itself and every
descendant). -/
def RangeNode.nodesRg : RangeNode → List Rg
  | .node r _ _ _ cs => r :: RangeForest.nodesRg cs

def RangeForest.nodesRg : RangeForest → List Rg
  | .nil => []
  | .cons t ts => t.nodesRg ++ ts.nodesRg
end

/-- Pairwise check that all listed ranges are nested-or-disjoint. -/
def pairwiseNestedOrDisjointB : List Rg → Bool
  | [] => true
  | r :: rest => rest.all (fun s => r.nestedOrDisjointB s) && pairwiseNestedOrDisjointB rest

/-- Pairwise disjointness of sibling ranges. -/
def pairwiseDisjointB : List Rg → Bool
  | [] => true
  | r :: rest => rest.all (fun s => r.disjointB s) && pairwiseDisjointB rest

mutual
/-- Structural well-formedness of a range tree: every interval is non-empty,
each child's interval is contained in its parent's, and siblings are
pairwise disjoint. -/
def RangeNode.validB : RangeNode → Bool
  | .node r _ _ _ cs =>
    r.nonemptyB
      && (cs.toList.all (fun ch => r.containsB ch.rg))
      && pairwiseDisjointB (cs.toList.map RangeNode.rg)
      && RangeForest.validB cs

def RangeForest.validB : RangeForest → Bool
  | .nil => true
  | .cons t ts => t.validB && ts.validB
end

/-- The no-partial-overlap invariant over a whole tree: every pair of nodes
is in the contains / contained-by / disjoint relation. -/
def RangeNode.noPartialOverlapB (t : RangeNode) : Bool :=
  pairwiseNestedOrDisjointB t.nodesRg

/-! ## Python string helpers -/

/-- Python slicing `s[a:b]` with possibly negative bounds. -/
def pySlice (l : List Char) (a b : Int) : List Char :=
  let n : Int := l.length
  let norm : Int → Nat := fun x =>
    if x < 0 then (max 0 (n + x)).toNat else (min x n).toNat
  let a' := norm a
  let b' := norm b
  ((l.drop a').take (b' - a'))

/-- Python `s.split(sep)` for a single-character separator (always returns a
non-empty list of pieces). -/
def splitOnChar (sep : Char) : List Char → List (List Char)
  | [] => [[]]
  | c :: rest =>
    let r := splitOnChar sep rest
    if c = sep then [] :: r
    else
      match r with
      | [] => [[c]]
      | h :: t => (c :: h) :: t

/-- Python `s.lstrip(ch)`: drop every leading occurrence of `ch`. -/
def lstripChar (ch : Char) (s : List Char) : List Char :=
  s.dropWhile (fun c => c = ch)

/-- Python `s.rstrip(ch)`: drop every trailing occurrence of `ch`. -/
def rstripChar (ch : Char) (s : List Char) : List Char :=
  (s.reverse.dropWhile (fun c => c = ch)).reverse

/-- Python `s.lstrip()`: drop leading whitespace. -/
def lstripWs (s : String) : String :=
  String.mk (s.data.dropWhile Char.isWhitespace)

/-- Python `s.startswith(pre)`, via the character list (the byte-position
implementation of `String.startsWith` is irreducible here). -/
def strStartsWith (s pre : String) : Bool := pre.data.isPrefixOf s.data

/-- Python `s[:n]` for a non-negative literal bound. -/
def strTake (s : String) (n : Nat) : String := String.mk (s.data.take n)

/-- Python `sep.join(parts)`. -/
def joinSep (sep : String) : List String → String
  | [] => ""
  | [x] => x
  | x :: rest => x ++ sep ++ joinSep sep rest

/-! ## The operator abbreviator -/

/-- `ABBREVIATION_DICT` (verbalisation.py, lines 32-52), in insertion order. -/
def ABBREVIATION_DICT : List (String × String) :=
  [("ObjectComplementOf", "[NEG]"),
   ("ObjectSomeValuesFrom", "[EX.]"),
   ("ObjectAllValuesFrom", "[ALL]"),
   ("ObjectUnionOf", "[OR.]"),
   ("ObjectIntersectionOf", "[AND]"),
   ("ObjectPropertyChain", "[OPC]"),
   ("EquivalentClasses", "[EQV]"),
   ("SubClassOf", "[SUB]"),
   ("SuperClassOf", "[SUP]"),
   ("ClassAssertion", "[CLA]"),
   ("SubObjectPropertyOf", "[SUB]"),
   ("SuperObjectPropertyOf", "[SUP]"),
   ("ObjectPropertyAssertion", "[OPA]"),
   ("ObjectPropertyDomain", "[OPD]"),
   ("DataPropertyDomain", "[DPD]"),
   ("AnnotationPropertyDomain", "[APD]"),
   ("ObjectPropertyRange", "[OPR]"),
   ("DataPropertyRange", "[DPR]"),
   ("AnnotationPropertyRange", "[APR]")]

/-- One left-to-right, non-overlapping replacement pass (Python
`str.replace`), driven by fuel; `replaceAllChars` supplies fuel equal to the
text length, which is always sufficient since a non-empty pattern consumes at
least one character per step. -/
def replaceGo (p r : List Char) : Nat → List Char → List Char
  | _, [] => []
  | 0, s => s
  | n + 1, c :: rest =>
    if p.isPrefixOf (c :: rest) then
      r ++ replaceGo p r n (rest.drop (p.length - 1))
    else
      c :: replaceGo p r n rest

/-- Python `s.replace(p, r)` for a non-empty pattern `p` (every pattern in
`ABBREVIATION_DICT` is non-empty; Python's behaviour on an empty pattern is
not needed and the text is returned unchanged in that case). -/
def replaceAllChars (s p r : List Char) : List Char :=
  match p with
  | [] => s
  | _ => replaceGo p r s.length s

/-- `OntologySyntaxParser.abbreviate_owl_expression` (lines 673-687): apply
`str.replace` once per `ABBREVIATION_DICT` entry, in insertion order. -/
def abbreviateOwlExpression (s : String) : String :=
  String.mk (ABBREVIATION_DICT.foldl
    (fun acc kv => replaceAllChars acc kv.1.data kv.2.data) s.data)

/-! ## The two-pass bracket-matching parser -/

/-- The body of the `for i, c in enumerate(owl_expression)` loop in
`parse_by_parentheses` (lines 742-769), for one character: push opening
brackets; on a closing bracket pop and insert the corresponding node
(`IndexError` on an empty stack is caught, `"Too many closing parentheses"`
is printed, and scanning continues); any `RuntimeError` from node
construction or insertion propagates.  The source selects the bracket pair
with `if for_iri: left_par, right_par = "<", ">"`; here the same dichotomy
is a top-level match on `forIri`. -/
def scanStep : Bool → List Char → Nat → Char → List Nat → RangeNode →
    Except String (List Nat × RangeNode)
  | false, full, i, c, stk, tree =>
    if c = '(' then .ok (i :: stk, tree)
    else if c = ')' then
      match stk with
      | [] => .ok ([], tree)
      | start :: stk' =>
        -- the first character is actually "[", a fixed 5 characters back
        let realStart : Int := (start : Int) - 5
        let axiomType := String.mk (pySlice full (realStart + 1) ((start : Int) - 1))
        match mkRangeNode realStart (.fin (i + 1)) axiomType
            (String.mk (pySlice full realStart (i + 1))) false with
        | .error e => .error e
        | .ok node =>
          match tree.insertChild node with
          | .error e => .error e
          | .ok tree' => .ok (stk', tree')
    else .ok (stk, tree)
  | true, full, i, c, stk, tree =>
    if c = '<' then .ok (i :: stk, tree)
    else if c = '>' then
      match stk with
      | [] => .ok ([], tree)
      | start :: stk' =>
        -- no preceding characters for just an atomic class (IRI)
        let span := pySlice full start (i + 1)
        let abbrIri := String.mk (rstripChar '>' ((splitOnChar '/' span).getLastD []))
        match mkRangeNode start (.fin (i + 1)) abbrIri (String.mk span) true with
        | .error e => .error e
        | .ok node =>
          match tree.insertChild node with
          | .error e => .error e
          | .ok tree' => .ok (stk', tree')
    else .ok (stk, tree)

/-- The whole scanning loop of `parse_by_parentheses`. -/
def scanChars (forIri : Bool) (full : List Char) :
    Nat → List Char → List Nat → RangeNode → Except String (List Nat × RangeNode)
  | _, [], stk, tree => .ok (stk, tree)
  | i, c :: rest, stk, tree =>
    match scanStep forIri full i c stk tree with
    | .error e => .error e
    | .ok (stk', tree') => scanChars forIri full (i + 1) rest stk' tree'

/-- The tail of `parse_by_parentheses`: run the scan and fail with
`RuntimeError("Too many opening parentheses")` if unmatched opening
brackets remain on the stack. -/
def parseByParenthesesGo (forIri : Bool) (s : String) (root : RangeNode) :
    Except String RangeNode :=
  match scanChars forIri s.data 0 s.data [] root with
  | .error e => .error e
  | .ok (stk, tree) =>
    match stk with
    | [] => .ok tree
    | _ :: _ => .error "Too many opening parentheses"

/-- `OntologySyntaxParser.parse_by_parentheses` (lines 710-774): build the
sentinel root `[0, inf)` when no partially parsed tree is supplied, run the
scan, and check the stack afterwards. -/
def parseByParentheses (s : String) (alreadyParsed : Option RangeNode)
    (forIri : Bool) : Except String RangeNode :=
  match alreadyParsed with
  | none =>
    match mkRangeNode 0 .inf "Root" s false with
    | .error e => .error e
    | .ok root => parseByParenthesesGo forIri s root
  | some t => parseByParenthesesGo forIri s t

/-- `OntologySyntaxParser.parse` (lines 689-708): abbreviate, then pass 1 on
`(`/`)` for operators, then pass 2 on `<`/`>` for IRIs, growing the same
tree. -/
def parse (owlExpression : String) : Except String RangeNode :=
  match parseByParentheses (abbreviateOwlExpression owlExpression) none false with
  | .error e => .error e
  | .ok curParsed =>
    parseByParentheses (abbreviateOwlExpression owlExpression) (some curParsed) true

/-! ## The recursive verbaliser -/

/-- `PREPOSITIONS` (verbalisation.py, lines 57-93). -/
def PREPOSITIONS : List String :=
  ["about", "above", "across", "after", "against", "along", "among", "around",
   "at", "before", "behind", "below", "beneath", "beside", "between", "by",
   "during", "for", "from", "in", "into", "like", "near", "of", "off", "on",
   "over", "through", "to", "under", "up", "with", "without"]

/-- The configuration resolved at `OntologyVerbaliser.__init__`: the entity
name vocabulary (built externally from the ontology's annotation index) and
the behaviour flags.  `posNeedsIs` abstracts the external spacy POS check of
`_fix_verb_phrase` (`doc[0]` is a NOUN, an ADJ, or a passive-style VERB). -/
structure VerbCfg where
  vocab : List (String × String)
  keepIri : Bool
  applyAutoCorrection : Bool
  addQuantifierWord : Bool
  posNeedsIs : String → Bool

/-- Dictionary lookup `self.vocab[iri]` (`none` models the `KeyError`). -/
def vocabGet (v : List (String × String)) (k : String) : Option String :=
  match v with
  | [] => none
  | (k', x) :: rest => if k' = k then some x else vocabGet rest k

/-- `OntologyVerbaliser._fix_noun_phrase` (lines 237-243): drop a trailing
preposition word. -/
def fixNounPhrase (nounPhrase : String) : String :=
  let words := (splitOnChar ' ' nounPhrase.data).map String.mk
  if words.getLastD "" ∈ PREPOSITIONS then
    joinSep " " words.dropLast
  else nounPhrase

/-- `OntologyVerbaliser._fix_verb_phrase` (lines 245-251): prefix `"is "`
when the external POS tagger classifies the first token as nominal,
adjectival, or a passive-style verb. -/
def fixVerbPhrase (cfg : VerbCfg) (verbPhrase : String) : String :=
  if cfg.posNeedsIs verbPhrase then "is " ++ verbPhrase else verbPhrase

/-- The nested `CfgNode` dictionaries returned by the verbaliser, as a
closed structure tree: the `type` field distinguishes `IRI`, `NEG`,
restriction (`EX.`/`ALL`), junction (`AND`/`OR.`) and property-chain results. -/
inductive V where
  | iri : String → String → V
  | neg : String → V → V
  | restriction : String → V → V → String → V
  | junction : String → List V → String → V
  | chain : String → List V → String → V

/-- The `verbal` entry of a verbalisation result. -/
def V.verbal : V → String
  | .iri v _ => v
  | .neg v _ => v
  | .restriction v _ _ _ => v
  | .junction v _ _ => v
  | .chain v _ _ => v

/-- The `property` entry of a restriction result (`v["property"]`). -/
def V.propertyF : V → V
  | .restriction _ p _ _ => p
  | v => v

/-- The `class` entry of a restriction result (`v["class"]`). -/
def V.classF : V → V
  | .restriction _ _ c _ => c
  | .neg _ c => c
  | v => v

/-- The `classes` entry of a junction result. -/
def V.classesF : V → List V
  | .junction _ cs _ => cs
  | _ => []

/-- The `type` entry of a result. -/
def V.tyF : V → String
  | .iri _ _ => "IRI"
  | .neg _ _ => "NEG"
  | .restriction _ _ _ t => t
  | .junction _ _ t => t
  | .chain _ _ t => t

/-- `OntologyVerbaliser._verbalise_iri` (lines 253-266): strip the angle
brackets, look the IRI up in the vocabulary (unless `keep_iri`), fall back
to the node's raw text on a `KeyError`, and optionally auto-correct. -/
def verbaliseIri (cfg : VerbCfg) (iriNode : RangeNode) (isProperty : Bool) : V :=
  let iri := String.mk (rstripChar '>' (lstripChar '<' iriNode.text.data))
  let verbal0 :=
    if !cfg.keepIri then
      match vocabGet cfg.vocab iri with
      | some v => v
      | none => iriNode.text
    else iriNode.text
  let verbal :=
    if cfg.applyAutoCorrection then
      if isProperty then fixVerbPhrase cfg verbal0 else fixNounPhrase verbal0
    else verbal0
  .iri verbal iri

/-- The condition under which `_verbalise_iri` emits its
`logger.warning` (missing-name) diagnostic: the lookup was attempted and
raised a `KeyError`. -/
def verbaliseIriWarns (cfg : VerbCfg) (iriNode : RangeNode) : Bool :=
  !cfg.keepIri
    && (vocabGet cfg.vocab
          (String.mk (rstripChar '>' (lstripChar '<' iriNode.text.data)))).isNone

/-- `OntologyVerbaliser._verbalise_property` (lines 268-281): an IRI property
is verbalised directly; a property chain verbalises each link and joins with
`" something that "`. -/
def verbaliseProperty (cfg : VerbCfg) (propertyNode : RangeNode) : V :=
  if propertyNode.isIri then verbaliseIri cfg propertyNode true
  else
    let properties := propertyNode.children.map (fun p => verbaliseIri cfg p true)
    .chain (joinSep " something that " (properties.map V.verbal)) properties
      (strTake propertyNode.name 3)

/-- The `defaultdict(list)` used by `_verbalise_junction`, as an association
list preserving Python's dict insertion order: appending to an existing key
extends that key's list in place, a new key goes to the end. -/
def dictAppend (d : List (String × List V)) (k : String) (x : V) :
    List (String × List V) :=
  match d with
  | [] => [(k, [x])]
  | (k', xs) :: rest =>
    if k' = k then (k', xs ++ [x]) :: rest else (k', xs) :: dictAppend rest k x

/-- The group-merging step of `_verbalise_junction` (lines 344-366): a
single-member group stays as is; a larger group is rewritten into one
restriction whose `class` is the junction of the individual fillers, with
the verbal texts extended by `" <junction> <filler>"` per extra member. -/
def mergeGroup (junctionWord junctionTy : String) : List V → Except String V
  | [] => .error "list index out of range"
  | v0 :: rest =>
    if rest.isEmpty then .ok v0
    else
      let suffix :=
        String.join (rest.map (fun vi => " " ++ junctionWord ++ " " ++ vi.classF.verbal))
      .ok (.restriction (v0.verbal ++ suffix) v0.propertyF
        (.junction (v0.classF.verbal ++ suffix) (v0.classF :: rest.map V.classF) junctionTy)
        v0.tyF)

def mergeGroups (junctionWord junctionTy : String) : List (List V) → Except String (List V)
  | [] => .ok []
  | g :: gs =>
    match mergeGroup junctionWord junctionTy g with
    | .error e => .error e
    | .ok v =>
      match mergeGroups junctionWord junctionTy gs with
      | .error e => .error e
      | .ok vs => .ok (v :: vs)

mutual
/-- `OntologyVerbaliser.verbalise_class_expression` (lines 192-235): parse a
textual input (skipping the root node), then dispatch on the node kind.
Recursion is fuel-indexed; Python's recursion is unbounded, so any
terminating Python run is reproduced for all sufficiently large fuel. -/
def verbaliseClassExpression (cfg : VerbCfg) : Nat → String ⊕ RangeNode → Except String V
  | 0, _ => .error "recursion fuel exhausted"
  | fuel + 1, inp =>
    let nodeE : Except String RangeNode :=
      match inp with
      | .inl s =>
        match parse s with
        | .error e => .error e
        | .ok t =>
          match t.children with
          | [] => .error "list index out of range"
          | c :: _ => .ok c
      | .inr t => .ok t
    match nodeE with
    | .error e => .error e
    | .ok node =>
      if node.isIri then
        .ok (verbaliseIri cfg node false)
      else if strStartsWith node.name "NEG" then
        match node.children with
        | [] => .error "list index out of range"
        | c :: _ =>
          match verbaliseClassExpression cfg fuel (.inr c) with
          | .error e => .error e
          | .ok cl => .ok (.neg ("not " ++ cl.verbal) cl)
      else if strStartsWith node.name "EX." || strStartsWith node.name "ALL" then
        verbaliseRestriction cfg fuel node true
      else if strStartsWith node.name "AND" || strStartsWith node.name "OR" then
        verbaliseJunction cfg fuel node
      else if strStartsWith node.name "OPC" then
        .ok (verbaliseProperty cfg node)
      else
        .error ("Input class expression `"
          ++ (match inp with | .inl s => s | .inr t => t.name)
          ++ "` is not in one of the supported types.")

/-- `OntologyVerbaliser._verbalise_restriction` (lines 283-318): requires an
`EX.`/`ALL` node with exactly two children (property, filler); the filler is
re-verbalised from its `text`; the quantifier word is added only when
configured; the leading-whitespace strip and the optional
`"something that "` prefix follow the source. -/
def verbaliseRestriction (cfg : VerbCfg) : Nat → RangeNode → Bool → Except String V
  | 0, _, _ => .error "recursion fuel exhausted"
  | fuel + 1, restrictionNode, addSomething =>
    if (strStartsWith restrictionNode.name "EX." || strStartsWith restrictionNode.name "ALL") then
      match restrictionNode.children with
      | [objectProperty, classExpression] =>
        let quantifierWord := if strStartsWith restrictionNode.name "EX." then "some" else "only"
        let objectPropertyV := verbaliseProperty cfg objectProperty
        match verbaliseClassExpression cfg fuel (.inl classExpression.text) with
        | .error e => .error e
        | .ok classExpressionV =>
          let verbal0 :=
            if cfg.addQuantifierWord then
              objectPropertyV.verbal ++ " " ++ quantifierWord ++ " " ++ classExpressionV.verbal
            else
              objectPropertyV.verbal ++ " " ++ classExpressionV.verbal
          let verbal1 := lstripWs verbal0
          let verbal := if addSomething then "something that " ++ verbal1 else verbal1
          .ok (.restriction verbal objectPropertyV classExpressionV
            (strTake restrictionNode.name 3))
      | _ =>
        .error "Input range node is not related to a existential or universal restriction statement."
    else
      .error "Input range node is not related to a existential or universal restriction statement."

/-- `OntologyVerbaliser._verbalise_junction` (lines 320-392).  Children are
collected into a property-keyed group dictionary for existential
restrictions, one for universal restrictions, and an `other_children` list;
groups are merged; rendering keeps the source's leading space in the
`"something that"`-only case because line 379's `results.verbal.lstrip()`
discards its result. -/
def verbaliseJunction (cfg : VerbCfg) : Nat → RangeNode → Except String V
  | 0, _ => .error "recursion fuel exhausted"
  | fuel + 1, junctionNode =>
    if strStartsWith junctionNode.name "AND" || strStartsWith junctionNode.name "OR." then
      let junctionWord := if strStartsWith junctionNode.name "AND" then "and" else "or"
      match collectJunction cfg fuel junctionNode.children [] [] [] with
      | .error e => .error e
      | .ok (exD, allD, otherChildren) =>
        match mergeGroups junctionWord (strTake junctionNode.name 3)
            (exD.map Prod.snd ++ allD.map Prod.snd) with
        | .error e => .error e
        | .ok mergedChildren =>
          let joinM := joinSep (" " ++ junctionWord ++ " ") (mergedChildren.map V.verbal)
          let verbal :=
            if otherChildren.isEmpty then
              " something that " ++ joinM
            else
              let base := joinSep (" " ++ junctionWord ++ " ") (otherChildren.map V.verbal)
              if !mergedChildren.isEmpty then
                if junctionWord = "and" then base ++ " that " ++ joinM
                else if junctionWord = "or" then base ++ " or something that " ++ joinM
                else base
              else base
          .ok (.junction verbal (otherChildren ++ mergedChildren)
            (strTake junctionNode.name 3))
    else
      .error "Input range node is not related to a conjunction or disjunction statement."

/-- The `for child in junction_node.children` collection loop of
`_verbalise_junction` (lines 330-342), threading the two group dictionaries
and the `other_children` list left to right. -/
def collectJunction (cfg : VerbCfg) :
    Nat → List RangeNode → List (String × List V) → List (String × List V) →
    List V → Except String (List (String × List V) × List (String × List V) × List V)
  | 0, _, _, _, _ => .error "recursion fuel exhausted"
  | _ + 1, [], exD, allD, others => .ok (exD, allD, others)
  | fuel + 1, child :: rest, exD, allD, others =>
    if strStartsWith child.name "EX." then
      match verbaliseRestriction cfg fuel child false with
      | .error e => .error e
      | .ok r => collectJunction cfg fuel rest (dictAppend exD r.propertyF.verbal r) allD others
    else if strStartsWith child.name "ALL" then
      match verbaliseRestriction cfg fuel child false with
      | .error e => .error e
      | .ok r => collectJunction cfg fuel rest exD (dictAppend allD r.propertyF.verbal r) others
    else
      match verbaliseClassExpression cfg fuel (.inr child) with
      | .error e => .error e
      | .ok v => collectJunction cfg fuel rest exD allD (others ++ [v])
end

/-! ## Axiom-level entry points -/

/-- Modelled from the spec: an `OWLAxiom` is opaque Java data whose only
observable features here are its axiom kind (the result of the external
`Ontology.get_axiom_type`, whose implementation is not part of the sources
under verification) and its string representation `str(axiom)`. -/
structure OWLAxiomM where
  axType : String
  text : String

/-- Modelled from the spec: `self.onto.get_axiom_type(axiom)` — the
externally supplied axiom kind used by `_axiom_input_check`. -/
def getAxiomType (axm : OWLAxiomM) : String := axm.axType

/-- Python's `str(list-of-strings)` as used in the `_axiom_input_check`
assertion message. -/
def pyListRepr (l : List String) : String :=
  "[" ++ joinSep ", " (l.map (fun s => "'" ++ s ++ "'")) ++ "]"

/-- `OntologyVerbaliser._axiom_input_check` (lines 394-398): assert that the
axiom's kind is one of the expected ones. -/
def axiomInputCheck (axm : OWLAxiomM) (requiredAxiomTypes : List String) :
    Except String Unit :=
  if getAxiomType axm ∈ requiredAxiomTypes then .ok ()
  else
    .error ("Input axiom type `" ++ getAxiomType axm ++ "` is not in "
      ++ pyListRepr requiredAxiomTypes ++ ".")

/-- Skip the root node: `self.parser.parse(...).children[0]`. -/
def parseTopLevel (s : String) : Except String RangeNode :=
  match parse s with
  | .error e => .error e
  | .ok t =>
    match t.children with
    | [] => .error "list index out of range"
    | c :: _ => .ok c

/-- `OntologyVerbaliser.verbalise_class_subsumption_axiom` (lines 400-426). -/
def verbaliseClassSubsumptionAxiom (cfg : VerbCfg) (fuel : Nat) (axm : OWLAxiomM) :
    Except String (V × V) :=
  match axiomInputCheck axm ["SubClassOf", "SuperClassOf"] with
  | .error e => .error e
  | .ok _ =>
    match parseTopLevel axm.text with
    | .error e => .error e
    | .ok top =>
      let subSupE : Except String (RangeNode × RangeNode) :=
        if strStartsWith axm.text "SubClassOf" then
          match top.children with
          | [a, b] => .ok (a, b)
          | _ => .error "ValueError: unpacking expects exactly two children"
        else if strStartsWith axm.text "SuperClassOf" then
          match top.children with
          | [a, b] => .ok (b, a)
          | _ => .error "ValueError: unpacking expects exactly two children"
        else .error "NameError: name 'parsed_sub_class' is not defined"
      match subSupE with
      | .error e => .error e
      | .ok (parsedSubClass, parsedSuperClass) =>
        match verbaliseClassExpression cfg fuel (.inr parsedSubClass) with
        | .error e => .error e
        | .ok vSub =>
          match verbaliseClassExpression cfg fuel (.inr parsedSuperClass) with
          | .error e => .error e
          | .ok vSuper => .ok (vSub, vSuper)

/-- `OntologyVerbaliser.verbalise_class_equivalence_axiom` (lines 428-448). -/
def verbaliseClassEquivalenceAxiom (cfg : VerbCfg) (fuel : Nat) (axm : OWLAxiomM) :
    Except String (V × V) :=
  match axiomInputCheck axm ["EquivalentClasses"] with
  | .error e => .error e
  | .ok _ =>
    match parseTopLevel axm.text with
    | .error e => .error e
    | .ok top =>
      match top.children with
      | [parsedClassLeft, parsedClassRight] =>
        match verbaliseClassExpression cfg fuel (.inr parsedClassLeft) with
        | .error e => .error e
        | .ok vLeft =>
          match verbaliseClassExpression cfg fuel (.inr parsedClassRight) with
          | .error e => .error e
          | .ok vRight => .ok (vLeft, vRight)
      | _ => .error "ValueError: unpacking expects exactly two children"

/-- `OntologyVerbaliser.verbalise_class_assertion_axiom` (lines 450-470). -/
def verbaliseClassAssertionAxiom (cfg : VerbCfg) (fuel : Nat) (axm : OWLAxiomM) :
    Except String (V × V) :=
  match axiomInputCheck axm ["ClassAssertion"] with
  | .error e => .error e
  | .ok _ =>
    match parseTopLevel axm.text with
    | .error e => .error e
    | .ok top =>
      match top.children with
      | [parsedClass, parsedIndividual] =>
        match verbaliseClassExpression cfg fuel (.inr parsedClass) with
        | .error e => .error e
        | .ok vClass => .ok (vClass, verbaliseIri cfg parsedIndividual false)
      | _ => .error "ValueError: unpacking expects exactly two children"

/-- `OntologyVerbaliser.verbalise_object_property_subsumption_axiom`
(lines 472-506). -/
def verbaliseObjectPropertySubsumptionAxiom (cfg : VerbCfg) (axm : OWLAxiomM) :
    Except String (V × V) :=
  match axiomInputCheck axm
      ["SubObjectPropertyOf", "SuperObjectPropertyOf",
       "SubPropertyChainOf", "SuperPropertyChainOf"] with
  | .error e => .error e
  | .ok _ =>
    match parseTopLevel axm.text with
    | .error e => .error e
    | .ok top =>
      let subSupE : Except String (RangeNode × RangeNode) :=
        if strStartsWith axm.text "SubObjectPropertyOf" then
          match top.children with
          | [a, b] => .ok (a, b)
          | _ => .error "ValueError: unpacking expects exactly two children"
        else if strStartsWith axm.text "SuperObjectPropertyOf" then
          match top.children with
          | [a, b] => .ok (b, a)
          | _ => .error "ValueError: unpacking expects exactly two children"
        else .error "NameError: name 'parsed_sub_property' is not defined"
      match subSupE with
      | .error e => .error e
      | .ok (parsedSubProperty, parsedSuperProperty) =>
        .ok (verbaliseProperty cfg parsedSubProperty, verbaliseProperty cfg parsedSuperProperty)

/-- `OntologyVerbaliser.verbalise_object_property_assertion_axiom`
(lines 508-530). -/
def verbaliseObjectPropertyAssertionAxiom (cfg : VerbCfg) (axm : OWLAxiomM) :
    Except String (V × V × V) :=
  match axiomInputCheck axm ["ObjectPropertyAssertion"] with
  | .error e => .error e
  | .ok _ =>
    match parseTopLevel axm.text with
    | .error e => .error e
    | .ok top =>
      match top.children with
      | [parsedObjProp, parsedIndivX, parsedIndivY] =>
        .ok (verbaliseIri cfg parsedObjProp true,
             verbaliseIri cfg parsedIndivX false,
             verbaliseIri cfg parsedIndivY false)
      | _ => .error "ValueError: unpacking expects exactly three children"

/-- `OntologyVerbaliser.verbalise_object_property_domain_axiom`
(lines 532-554). -/
def verbaliseObjectPropertyDomainAxiom (cfg : VerbCfg) (fuel : Nat) (axm : OWLAxiomM) :
    Except String (V × V) :=
  match axiomInputCheck axm ["ObjectPropertyDomain"] with
  | .error e => .error e
  | .ok _ =>
    match parseTopLevel axm.text with
    | .error e => .error e
    | .ok top =>
      match top.children with
      | [parsedObjProp, parsedDomain] =>
        match verbaliseClassExpression cfg fuel (.inr parsedDomain) with
        | .error e => .error e
        | .ok vDomain => .ok (verbaliseIri cfg parsedObjProp true, vDomain)
      | _ => .error "ValueError: unpacking expects exactly two children"

/-- `OntologyVerbaliser.verbalise_object_property_range_axiom`
(lines 556-578). -/
def verbaliseObjectPropertyRangeAxiom (cfg : VerbCfg) (fuel : Nat) (axm : OWLAxiomM) :
    Except String (V × V) :=
  match axiomInputCheck axm ["ObjectPropertyRange"] with
  | .error e => .error e
  | .ok _ =>
    match parseTopLevel axm.text with
    | .error e => .error e
    | .ok top =>
      match top.children with
      | [parsedObjProp, parsedRange] =>
        match verbaliseClassExpression cfg fuel (.inr parsedRange) with
        | .error e => .error e
        | .ok vRange => .ok (verbaliseIri cfg parsedObjProp true, vRange)
      | _ => .error "ValueError: unpacking expects exactly two children"

/-! ## Basic lemmas: forests, extended integers, ranges -/

theorem RangeForest.toList_ofList : ∀ (l : List RangeNode), (RangeForest.ofList l).toList = l
  | [] => rfl
  | x :: xs => by simp [RangeForest.ofList, RangeForest.toList, RangeForest.toList_ofList xs]

theorem RangeForest.toList_append : ∀ (f g : RangeForest),
    (f.append g).toList = f.toList ++ g.toList
  | .nil, _ => rfl
  | .cons x xs, g => by
    simp [RangeForest.append, RangeForest.toList, RangeForest.toList_append xs g]

theorem RangeNode.appendChild_rg (c ch : RangeNode) : (c.appendChild ch).rg = c.rg := by
  cases c; rfl

theorem RangeNode.appendChild_children (c ch : RangeNode) :
    (c.appendChild ch).children = c.children ++ [ch] := by
  cases c
  simp [RangeNode.appendChild, RangeNode.children, RangeNode.childrenF,
    RangeForest.toList_append, RangeForest.toList]

theorem RangeForest.toList_eq_nil : ∀ (f : RangeForest), f.toList = [] → f = .nil
  | .nil, _ => rfl
  | .cons _ _, h => by simp [RangeForest.toList] at h

theorem XInt.leb_fin_fin {a b : Int} : XInt.leb (.fin a) (.fin b) = true ↔ a ≤ b := by
  simp [XInt.leb]

theorem XInt.ltb_fin_fin {a b : Int} : XInt.ltb (.fin a) (.fin b) = true ↔ a < b := by
  simp [XInt.ltb]

theorem XInt.not_leb {a b : XInt} (h : XInt.leb a b = false) : XInt.ltb b a = true := by
  cases a <;> cases b <;> simp [XInt.leb, XInt.ltb] at * <;> omega

theorem XInt.ltb_imp_leb {a b : XInt} (h : XInt.ltb a b = true) : XInt.leb a b = true := by
  cases a <;> cases b <;> simp [XInt.leb, XInt.ltb] at * <;> omega

theorem XInt.leb_trans {a b c : XInt} (h1 : XInt.leb a b = true)
    (h2 : XInt.leb b c = true) : XInt.leb a c = true := by
  cases a <;> cases b <;> cases c <;> simp [XInt.leb] at * <;> omega

theorem XInt.ltb_leb_trans {a b c : XInt} (h1 : XInt.ltb a b = true)
    (h2 : XInt.leb b c = true) : XInt.ltb a c = true := by
  cases a <;> cases b <;> cases c <;> simp [XInt.leb, XInt.ltb] at * <;> omega

theorem XInt.leb_ltb_trans {a b c : XInt} (h1 : XInt.leb a b = true)
    (h2 : XInt.ltb b c = true) : XInt.ltb a c = true := by
  cases a <;> cases b <;> cases c <;> simp [XInt.leb, XInt.ltb] at * <;> omega

theorem XInt.leb_refl (a : XInt) : XInt.leb a a = true := by
  cases a <;> simp [XInt.leb]

theorem XInt.ltb_irrefl (a : XInt) : XInt.ltb a a = false := by
  cases a <;> simp [XInt.ltb]

theorem Rg.containsB_refl (a : Rg) : a.containsB a = true := by
  simp [Rg.containsB, XInt.leb_refl]

theorem Rg.containsB_trans {a b c : Rg} (h1 : a.containsB b = true)
    (h2 : b.containsB c = true) : a.containsB c = true := by
  simp [Rg.containsB] at *
  exact ⟨le_trans h1.1 h2.1, XInt.leb_trans h2.2 h1.2⟩

theorem Rg.disjointB_symm {a b : Rg} (h : a.disjointB b = true) :
    b.disjointB a = true := by
  simp [Rg.disjointB] at *
  tauto

theorem Rg.disjointB_symmetric : Symmetric (fun a b : Rg => a.disjointB b = true) :=
  fun _ _ h => Rg.disjointB_symm h

theorem Rg.disjointB_mono {A B r s : Rg} (hr : A.containsB r = true)
    (hs : B.containsB s = true) (h : A.disjointB B = true) :
    r.disjointB s = true := by
  simp [Rg.containsB, Rg.disjointB] at *
  rcases h with h | h
  · left
    refine XInt.leb_trans hs.2 (XInt.leb_trans h ?_)
    exact XInt.leb_fin_fin.mpr hr.1
  · right
    refine XInt.leb_trans hr.2 (XInt.leb_trans h ?_)
    exact XInt.leb_fin_fin.mpr hs.1

theorem Rg.containsB_disjointB_empty {A r : Rg} (hc : A.containsB r = true)
    (hd : A.disjointB r = true) (hn : r.nonemptyB = true) : False := by
  simp [Rg.containsB, Rg.disjointB, Rg.nonemptyB] at *
  rcases hd with h | h
  · have h2 : XInt.leb r.stop (.fin r.start) = true :=
      XInt.leb_trans h (XInt.leb_fin_fin.mpr hc.1)
    have := XInt.ltb_leb_trans hn h2
    rw [XInt.ltb_irrefl] at this
    exact Bool.false_ne_true this
  · have h2 : XInt.leb r.stop (.fin r.start) = true := XInt.leb_trans hc.2 h
    have := XInt.ltb_leb_trans hn h2
    rw [XInt.ltb_irrefl] at this
    exact Bool.false_ne_true this

/-! ## Inversion lemmas for `rangeGt` -/

theorem rangeGt_isTrue {a b : Rg} (h : rangeGt a b = .ok .isTrue) :
    a.containsB b = true := by
  unfold rangeGt at h
  split at h
  · assumption
  · split at h
    · simp at h
    · split at h
      · simp at h
      · simp at h

theorem rangeGt_isFalse {a b : Rg} (h : rangeGt a b = .ok .isFalse) :
    a.containsB b = false ∧ b.containsB a = true := by
  unfold rangeGt at h
  split at h
  · simp at h
  · split at h
    · next h1 h2 => exact ⟨by simpa using h1, h2⟩
    · split at h
      · simp at h
      · simp at h

theorem rangeGt_irrelevant {a b : Rg} (h : rangeGt a b = .ok .irrelevant) :
    a.disjointB b = true ∧ a.containsB b = false ∧ b.containsB a = false := by
  unfold rangeGt at h
  split at h
  · simp at h
  · split at h
    · simp at h
    · split at h
      · next h1 h2 h3 =>
        refine ⟨?_, by simpa using h1, by simpa using h2⟩
        simp only [Rg.disjointB]
        rcases Bool.or_eq_true_iff.mp h3 with h' | h'
        · exact Bool.or_eq_true_iff.mpr (Or.inl (XInt.ltb_imp_leb h'))
        · exact Bool.or_eq_true_iff.mpr (Or.inr (XInt.ltb_imp_leb h'))
      · simp at h

theorem rangeGt_ok_nestedOrDisjoint {a b : Rg} {r : GtRes} (h : rangeGt a b = .ok r) :
    a.nestedOrDisjointB b = true := by
  cases r with
  | isTrue => simp [Rg.nestedOrDisjointB, rangeGt_isTrue h]
  | isFalse => simp [Rg.nestedOrDisjointB, (rangeGt_isFalse h).2]
  | irrelevant => simp [Rg.nestedOrDisjointB, (rangeGt_irrelevant h).1]

/-! ## Pairwise and sorting lemmas -/

theorem pairwiseDisjointB_iff : ∀ (l : List Rg),
    pairwiseDisjointB l = true ↔ l.Pairwise (fun a b => a.disjointB b = true)
  | [] => by simp [pairwiseDisjointB]
  | r :: rest => by
    simp [pairwiseDisjointB, List.all_eq_true, pairwiseDisjointB_iff rest]

theorem pairwiseNestedOrDisjointB_iff : ∀ (l : List Rg),
    pairwiseNestedOrDisjointB l = true ↔
      l.Pairwise (fun a b => a.nestedOrDisjointB b = true)
  | [] => by simp [pairwiseNestedOrDisjointB]
  | r :: rest => by
    simp [pairwiseNestedOrDisjointB, List.all_eq_true, pairwiseNestedOrDisjointB_iff rest]

theorem insertByStart_perm (x : RangeNode) : ∀ (l : List RangeNode),
    (insertByStart x l).Perm (x :: l)
  | [] => by simp [insertByStart]
  | y :: ys => by
    unfold insertByStart
    split
    · exact List.Perm.refl _
    · exact ((insertByStart_perm x ys).cons y).trans (List.Perm.swap x y ys)

theorem sortByStart_perm : ∀ (l : List RangeNode), (sortByStart l).Perm l
  | [] => by simp [sortByStart]
  | x :: xs => by
    have h1 : sortByStart (x :: xs) = insertByStart x (sortByStart xs) := rfl
    rw [h1]
    exact (insertByStart_perm x (sortByStart xs)).trans ((sortByStart_perm xs).cons x)

/-! ## Extraction lemmas for `validB` -/

theorem RangeForest.validB_iffF : ∀ (f : RangeForest),
    RangeForest.validB f = true ↔ ∀ u ∈ f.toList, RangeNode.validB u = true
  | .nil => by simp [RangeForest.validB, RangeForest.toList]
  | .cons t ts => by
    simp [RangeForest.validB, RangeForest.toList, RangeForest.validB_iffF ts]

theorem RangeNode.validB_node_iff (r : Rg) (nm tx : String) (ii : Bool) (cs : RangeForest) :
    RangeNode.validB (.node r nm tx ii cs) = true ↔
      r.nonemptyB = true
      ∧ (∀ ch ∈ cs.toList, r.containsB ch.rg = true)
      ∧ pairwiseDisjointB (cs.toList.map RangeNode.rg) = true
      ∧ (∀ u ∈ cs.toList, RangeNode.validB u = true) := by
  show (_ && _ && _ && _) = true ↔ _
  simp [List.all_eq_true, RangeForest.validB_iffF, and_assoc]

theorem RangeNode.validB_iff (t : RangeNode) :
    RangeNode.validB t = true ↔
      t.rg.nonemptyB = true
      ∧ (∀ ch ∈ t.children, t.rg.containsB ch.rg = true)
      ∧ pairwiseDisjointB (t.children.map RangeNode.rg) = true
      ∧ (∀ u ∈ t.children, RangeNode.validB u = true) := by
  cases t with
  | node r nm tx ii cs =>
    simpa [RangeNode.rg, RangeNode.children, RangeNode.childrenF] using
      RangeNode.validB_node_iff r nm tx ii cs

/-! ## Valid trees: containment bound and the no-partial-overlap invariant -/

mutual
theorem RangeNode.subtree_bound : ∀ (t : RangeNode), RangeNode.validB t = true →
    ∀ d ∈ t.nodesRg, t.rg.containsB d = true
  | .node r nm tx ii cs, hv, d, hd => by
    rw [RangeNode.validB_node_iff] at hv
    obtain ⟨hn, hcont, hpw, hvs⟩ := hv
    rw [RangeNode.nodesRg] at hd
    rcases List.mem_cons.mp hd with h | h
    · subst h; exact Rg.containsB_refl _
    · obtain ⟨u, hu, hcu⟩ := RangeForest.subtree_boundF cs hvs d h
      exact Rg.containsB_trans (hcont u hu) hcu

theorem RangeForest.subtree_boundF : ∀ (f : RangeForest),
    (∀ u ∈ f.toList, RangeNode.validB u = true) →
    ∀ d ∈ RangeForest.nodesRg f, ∃ u ∈ f.toList, u.rg.containsB d = true
  | .cons t ts, hvs, d, hd => by
    rw [RangeForest.nodesRg] at hd
    rcases List.mem_append.mp hd with h | h
    · exact ⟨t, by simp [RangeForest.toList],
        RangeNode.subtree_bound t (hvs t (by simp [RangeForest.toList])) d h⟩
    · obtain ⟨u, hu, hcu⟩ := RangeForest.subtree_boundF ts
        (fun u hu => hvs u (by simp [RangeForest.toList]; exact Or.inr hu)) d h
      exact ⟨u, by simp [RangeForest.toList]; exact Or.inr hu, hcu⟩
end

mutual
theorem RangeNode.npo_of_valid : ∀ (t : RangeNode), RangeNode.validB t = true →
    pairwiseNestedOrDisjointB t.nodesRg = true
  | .node r nm tx ii cs, hv => by
    have hv' := hv
    rw [RangeNode.validB_node_iff] at hv'
    obtain ⟨hn, hcont, hpw, hvs⟩ := hv'
    rw [RangeNode.nodesRg, pairwiseNestedOrDisjointB_iff, List.pairwise_cons]
    constructor
    · intro b hb
      obtain ⟨u, hu, hcu⟩ := RangeForest.subtree_boundF cs hvs b hb
      have : r.containsB b = true := Rg.containsB_trans (hcont u hu) hcu
      simp [Rg.nestedOrDisjointB, this]
    · rw [← pairwiseNestedOrDisjointB_iff]
      exact RangeForest.npo_of_validF cs hvs hpw

theorem RangeForest.npo_of_validF : ∀ (f : RangeForest),
    (∀ u ∈ f.toList, RangeNode.validB u = true) →
    pairwiseDisjointB (f.toList.map RangeNode.rg) = true →
    pairwiseNestedOrDisjointB (RangeForest.nodesRg f) = true
  | .nil, _, _ => by simp [RangeForest.nodesRg, pairwiseNestedOrDisjointB]
  | .cons t ts, hvs, hpw => by
    have hvt : RangeNode.validB t = true := hvs t (by simp [RangeForest.toList])
    have hvts : ∀ u ∈ ts.toList, RangeNode.validB u = true :=
      fun u hu => hvs u (by simp [RangeForest.toList]; exact Or.inr hu)
    rw [RangeForest.toList, List.map_cons, pairwiseDisjointB_iff, List.pairwise_cons] at hpw
    obtain ⟨hdisj, hpwts⟩ := hpw
    rw [RangeForest.nodesRg, pairwiseNestedOrDisjointB_iff, List.pairwise_append]
    refine ⟨?_, ?_, ?_⟩
    · rw [← pairwiseNestedOrDisjointB_iff]
      exact RangeNode.npo_of_valid t hvt
    · rw [← pairwiseNestedOrDisjointB_iff]
      exact RangeForest.npo_of_validF ts hvts (by rw [pairwiseDisjointB_iff]; exact hpwts)
    · intro a ha b hb
      have hat : t.rg.containsB a = true := RangeNode.subtree_bound t hvt a ha
      obtain ⟨u, hu, hbu⟩ := RangeForest.subtree_boundF ts hvts b hb
      have hdtu : t.rg.disjointB u.rg = true :=
        hdisj u.rg (List.mem_map.mpr ⟨u, hu, rfl⟩)
      have : a.disjointB b = true := Rg.disjointB_mono hat hbu hdtu
      simp [Rg.nestedOrDisjointB, this]
end

/-- A structurally valid tree satisfies the global no-partial-overlap
invariant. -/
theorem RangeNode.noPartialOverlap_of_valid {t : RangeNode}
    (hv : RangeNode.validB t = true) : t.noPartialOverlapB = true :=
  RangeNode.npo_of_valid t hv

theorem rangeGt_of_containsB {a b : Rg} (h : a.containsB b = true) :
    rangeGt a b = .ok .isTrue := by
  simp [rangeGt, h]

theorem not_containsB_of_gtRes {a b : Rg} {g : GtRes} (h : rangeGt a b = .ok g)
    (hg : g ≠ .isTrue) : a.containsB b = false := by
  by_cases hc : a.containsB b = true
  · rw [rangeGt_of_containsB hc] at h
    injection h with h'
    exact absurd h'.symm hg
  · simpa using hc

theorem keep_case_disjoint {c ch : Rg} {g1 g2 : GtRes}
    (h1 : rangeGt ch c = .ok g1) (hg1 : g1 ≠ .isTrue)
    (h2 : rangeGt c ch = .ok g2) (hg2 : g2 ≠ .isTrue) :
    c.disjointB ch = true := by
  cases g2 with
  | isTrue => exact absurd rfl hg2
  | isFalse =>
    have hcc := (rangeGt_isFalse h2).2
    rw [rangeGt_of_containsB hcc] at h1
    injection h1 with h1'
    exact absurd h1'.symm hg1
  | irrelevant => exact (rangeGt_irrelevant h2).1

/-! ## `insert_child` preserves structural validity -/

theorem insertLoopWith_valid
    (f : RangeNode → RangeNode → Except String RangeNode)
    (hf : ∀ (a b b' : RangeNode), RangeNode.validB a = true →
      RangeNode.validB b = true → b.childrenF = .nil → f a b = .ok b' →
      RangeNode.validB b' = true ∧ b'.rg = a.rg) :
    ∀ (fo : RangeForest) (c : RangeNode) (ins : Bool) (out : RangeForest)
      (c' : RangeNode),
    (∀ u ∈ fo.toList, RangeNode.validB u = true) →
    pairwiseDisjointB (fo.toList.map RangeNode.rg) = true →
    RangeNode.validB c = true →
    (∀ u ∈ fo.toList, ∀ w ∈ c.children, u.rg.disjointB w.rg = true) →
    insertLoopWith f c fo = .ok (ins, out, c') →
    (out.toList.map RangeNode.rg).Sublist (fo.toList.map RangeNode.rg)
    ∧ (∀ u ∈ out.toList, RangeNode.validB u = true)
    ∧ c'.rg = c.rg ∧ RangeNode.validB c' = true
    ∧ (ins = false → ∀ u ∈ out.toList, u.rg.disjointB c.rg = true)
  | .nil => by
    intro c ins out c' hall hpw hvc hcross hok
    rw [insertLoopWith] at hok
    simp only [Except.ok.injEq, Prod.mk.injEq] at hok
    obtain ⟨hins, hout, hcc⟩ := hok
    subst hins
    subst hout
    subst hcc
    refine ⟨?_, ?_, rfl, hvc, ?_⟩ <;> simp [RangeForest.toList]
  | .cons ch rest => by
    intro c ins out c' hall hpw hvc hcross hok
    have hvch : RangeNode.validB ch = true := hall ch (by simp [RangeForest.toList])
    have hallrest : ∀ u ∈ rest.toList, RangeNode.validB u = true :=
      fun u hu => hall u (by simp [RangeForest.toList]; exact Or.inr hu)
    have hpw' := hpw
    rw [RangeForest.toList, List.map_cons, pairwiseDisjointB_iff,
      List.pairwise_cons] at hpw'
    obtain ⟨hheadDisj, hpwrest⟩ := hpw'
    have hcrossrest : ∀ u ∈ rest.toList, ∀ w ∈ c.children,
        u.rg.disjointB w.rg = true :=
      fun u hu => hcross u (by simp [RangeForest.toList]; exact Or.inr hu)
    rw [insertLoopWith] at hok
    split at hok
    · simp at hok
    · next heq1 =>
      -- the child contains the candidate: recurse and stop
      have hchc : ch.rg.containsB c.rg = true := rangeGt_isTrue heq1
      -- the candidate must be childless here
      have hcnil : c.childrenF = .nil := by
        apply RangeForest.toList_eq_nil
        by_contra hne
        match hmem : c.children with
        | [] => exact hne hmem
        | w :: ws =>
          have hw : w ∈ c.children := by rw [hmem]; simp
          have hdisj := hcross ch (by simp [RangeForest.toList]) w hw
          have hcw : c.rg.containsB w.rg = true := by
            rw [RangeNode.validB_iff] at hvc
            exact hvc.2.1 w hw
          have hnw : w.rg.nonemptyB = true := by
            rw [RangeNode.validB_iff] at hvc
            have := hvc.2.2.2 w hw
            rw [RangeNode.validB_iff] at this
            exact this.1
          exact Rg.containsB_disjointB_empty (Rg.containsB_trans hchc hcw) hdisj hnw
      split at hok
      · simp at hok
      · next ch' heqIns =>
        simp only [Except.ok.injEq, Prod.mk.injEq] at hok
        obtain ⟨hins, hout, hcc⟩ := hok
        subst hins
        subst hout
        subst hcc
        obtain ⟨hvch', hrgch'⟩ := hf ch c ch' hvch hvc hcnil heqIns
        refine ⟨?_, ?_, rfl, hvc, by simp⟩
        · simp only [RangeForest.toList, List.map_cons, hrgch']
          exact List.Sublist.refl _
        · intro u hu
          simp [RangeForest.toList] at hu
          rcases hu with h | h
          · subst h; exact hvch'
          · exact hallrest u h
    · next g1 hg1ne heq1 =>
      split at hok
      · simp at hok
      · next heq2 =>
        -- reparent: the candidate absorbs this child and the loop continues
        have hcch : c.rg.containsB ch.rg = true := rangeGt_isTrue heq2
        have hvcNew : RangeNode.validB (c.appendChild ch) = true := by
          rw [RangeNode.validB_iff, RangeNode.appendChild_rg,
            RangeNode.appendChild_children]
          rw [RangeNode.validB_iff] at hvc
          obtain ⟨hn, hcont, hpwc, hvsc⟩ := hvc
          refine ⟨hn, ?_, ?_, ?_⟩
          · intro u hu
            rcases List.mem_append.mp hu with h | h
            · exact hcont u h
            · simp at h; subst h; exact hcch
          · rw [pairwiseDisjointB_iff, List.map_append, List.pairwise_append]
            refine ⟨(pairwiseDisjointB_iff _).mp hpwc, by simp, ?_⟩
            intro a ha b hb
            simp at hb
            subst hb
            obtain ⟨w, hw, hwe⟩ := List.mem_map.mp ha
            rw [← hwe]
            exact Rg.disjointB_symm
              (hcross ch (by simp [RangeForest.toList]) w hw)
          · intro u hu
            rcases List.mem_append.mp hu with h | h
            · exact hvsc u h
            · simp at h; subst h; exact hvch
        have hcrossNew : ∀ u ∈ rest.toList, ∀ w ∈ (c.appendChild ch).children,
            u.rg.disjointB w.rg = true := by
          intro u hu w hw
          rw [RangeNode.appendChild_children] at hw
          rcases List.mem_append.mp hw with h | h
          · exact hcrossrest u hu w h
          · simp at h
            subst h
            exact Rg.disjointB_symm
              (hheadDisj u.rg (List.mem_map.mpr ⟨u, hu, rfl⟩))
        obtain ⟨hsub, hvalids, hcrg, hvc', hdisj⟩ := insertLoopWith_valid f hf rest
          (c.appendChild ch) ins out c' hallrest
          (by rw [pairwiseDisjointB_iff]; exact hpwrest) hvcNew hcrossNew hok
        rw [RangeNode.appendChild_rg] at hcrg
        refine ⟨?_, hvalids, hcrg, hvc', ?_⟩
        · simp only [RangeForest.toList, List.map_cons]
          exact hsub.cons _
        · intro hins u hu
          have := hdisj hins u hu
          rwa [RangeNode.appendChild_rg] at this
      · next g2 hg2ne heq2 =>
        -- keep: the child is untouched and the loop continues
        split at hok
        · simp at hok
        · next ins2 out2 c2 heq3 =>
          simp only [Except.ok.injEq, Prod.mk.injEq] at hok
          obtain ⟨hins, hout, hcc⟩ := hok
          subst hins
          subst hout
          subst hcc
          obtain ⟨hsub, hvalids, hcrg, hvc', hdisj⟩ := insertLoopWith_valid f hf rest
            c ins2 out2 c2 hallrest (by rw [pairwiseDisjointB_iff]; exact hpwrest)
            hvc hcrossrest heq3
          have hkeepDisj : c.rg.disjointB ch.rg = true :=
            keep_case_disjoint heq1 (fun h => hg1ne h) heq2 (fun h => hg2ne h)
          refine ⟨?_, ?_, hcrg, hvc', ?_⟩
          · simp only [RangeForest.toList, List.map_cons]
            exact hsub.cons₂ _
          · intro u hu
            simp [RangeForest.toList] at hu
            rcases hu with h | h
            · subst h; exact hvch
            · exact hvalids u h
          · intro hins u hu
            simp [RangeForest.toList] at hu
            rcases hu with h | h
            · subst h
              exact Rg.disjointB_symm hkeepDisj
            · exact hdisj hins u h

theorem insertChildFuel_valid : ∀ (n : Nat) (t c t' : RangeNode),
    RangeNode.validB t = true → RangeNode.validB c = true → c.childrenF = .nil →
    insertChildFuel n t c = .ok t' →
    RangeNode.validB t' = true ∧ t'.rg = t.rg := by
  intro n
  induction n with
  | zero =>
    intro t c t' _ _ _ hok
    simp [insertChildFuel] at hok
  | succ n ih =>
    rintro ⟨rg, nm, tx, ii, cs⟩ c t' hvt hvc hcnil hok
    have hvt' := hvt
    rw [RangeNode.validB_node_iff] at hvt'
    obtain ⟨hn, hcont, hpw, hvs⟩ := hvt'
    simp only [insertChildFuel] at hok
    split at hok
    · simp at hok
    · simp at hok
    · simp at hok
    · next heqGt =>
      have hcontained : Rg.containsB rg c.rg = true := (rangeGt_isFalse heqGt).2
      split at hok
      · -- duplicate branch: the tree is returned unchanged
        simp only [Except.ok.injEq] at hok
        subst hok
        exact ⟨hvt, rfl⟩
      · split at hok
        · -- no children: attach the candidate directly
          simp only [Except.ok.injEq] at hok
          subst hok
          refine ⟨?_, rfl⟩
          rw [RangeNode.validB_node_iff]
          refine ⟨hn, ?_, ?_, ?_⟩
          · intro u hu
            simp [RangeForest.toList] at hu
            subst hu
            exact hcontained
          · simp [RangeForest.toList, pairwiseDisjointB]
          · intro u hu
            simp [RangeForest.toList] at hu
            subst hu
            exact hvc
        · next ch rest =>
          have hloop : ∀ {ins : Bool} {out : RangeForest} {c2 : RangeNode},
              insertLoopWith (insertChildFuel n) c (.cons ch rest) = .ok (ins, out, c2) →
              (out.toList.map RangeNode.rg).Sublist
                  ((RangeForest.cons ch rest).toList.map RangeNode.rg)
              ∧ (∀ u ∈ out.toList, RangeNode.validB u = true)
              ∧ c2.rg = c.rg ∧ RangeNode.validB c2 = true
              ∧ (ins = false → ∀ u ∈ out.toList, u.rg.disjointB c.rg = true) := by
            intro ins out c2 h
            exact insertLoopWith_valid (insertChildFuel n)
              (fun a b b' h1 h2 h3 h4 => ih a b b' h1 h2 h3 h4)
              (.cons ch rest) c ins out c2 hvs hpw hvc
              (by
                intro u hu w hw
                simp [RangeNode.children, hcnil, RangeForest.toList] at hw) h
          split at hok
          · simp at hok
          · next newCs c2 heqL =>
            simp only [Except.ok.injEq] at hok
            subst hok
            obtain ⟨hsub, hvalids, _, _, _⟩ := hloop heqL
            refine ⟨?_, rfl⟩
            rw [RangeNode.validB_node_iff]
            refine ⟨hn, ?_, ?_, hvalids⟩
            · intro u hu
              have : u.rg ∈ (RangeForest.cons ch rest).toList.map RangeNode.rg :=
                hsub.subset (List.mem_map.mpr ⟨u, hu, rfl⟩)
              obtain ⟨w, hw, hwe⟩ := List.mem_map.mp this
              rw [← hwe]
              exact hcont w hw
            · rw [pairwiseDisjointB_iff]
              exact ((pairwiseDisjointB_iff _).mp hpw).sublist hsub
          · next kept c2 heqL =>
            simp only [Except.ok.injEq] at hok
            subst hok
            obtain ⟨hsub, hvalids, hc2rg, hvc2, hdisj⟩ := hloop heqL
            have hdisj' := hdisj rfl
            refine ⟨?_, rfl⟩
            -- the final children are a permutation of kept ++ [c2]
            have hperm : (sortByStartF (kept.append (.cons c2 .nil))).toList.Perm
                (kept.toList ++ [c2]) := by
              rw [sortByStartF, RangeForest.toList_ofList, RangeForest.toList_append]
              simpa [RangeForest.toList] using
                sortByStart_perm (kept.toList ++ [c2])
            rw [RangeNode.validB_node_iff]
            refine ⟨hn, ?_, ?_, ?_⟩
            · intro u hu
              have hu' := hperm.mem_iff.mp hu
              rcases List.mem_append.mp hu' with h | h
              · have : u.rg ∈ (RangeForest.cons ch rest).toList.map RangeNode.rg :=
                  hsub.subset (List.mem_map.mpr ⟨u, h, rfl⟩)
                obtain ⟨w, hw, hwe⟩ := List.mem_map.mp this
                rw [← hwe]
                exact hcont w hw
              · simp at h
                subst h
                rw [hc2rg]
                exact hcontained
            · rw [pairwiseDisjointB_iff]
              have hmapperm : ((sortByStartF (kept.append (.cons c2 .nil))).toList.map
                  RangeNode.rg).Perm ((kept.toList ++ [c2]).map RangeNode.rg) :=
                hperm.map _
              rw [List.Perm.pairwise_iff (fun {_ _} h => Rg.disjointB_symm h) hmapperm]
              rw [List.map_append, List.pairwise_append]
              refine ⟨((pairwiseDisjointB_iff _).mp hpw).sublist hsub, by simp, ?_⟩
              intro a ha b hb
              simp at hb
              subst hb
              obtain ⟨w, hw, hwe⟩ := List.mem_map.mp ha
              rw [← hwe, hc2rg]
              exact hdisj' w hw
            · intro u hu
              have hu' := hperm.mem_iff.mp hu
              rcases List.mem_append.mp hu' with h | h
              · exact hvalids u h
              · simp at h
                subst h
                exact hvc2

theorem insertChild_valid (t c t' : RangeNode)
    (hvt : RangeNode.validB t = true) (hvc : RangeNode.validB c = true)
    (hcnil : c.childrenF = .nil) (hok : RangeNode.insertChild t c = .ok t') :
    RangeNode.validB t' = true ∧ t'.rg = t.rg :=
  insertChildFuel_valid t.sizeN t c t' hvt hvc hcnil hok

/-! ## The parser returns only structurally valid trees -/

theorem mkRangeNode_props {start : Int} {stop : XInt} {name text : String}
    {isIri : Bool} {node : RangeNode}
    (h : mkRangeNode start stop name text isIri = .ok node) :
    RangeNode.validB node = true ∧ node.childrenF = .nil ∧ node.rg = ⟨start, stop⟩ := by
  unfold mkRangeNode at h
  split at h
  · simp at h
  · next hle =>
    simp only [Except.ok.injEq] at h
    subst h
    refine ⟨?_, rfl, rfl⟩
    rw [RangeNode.validB_node_iff]
    refine ⟨?_, by simp [RangeForest.toList],
      by simp [RangeForest.toList, pairwiseDisjointB], by simp [RangeForest.toList]⟩
    simp only [Rg.nonemptyB]
    exact XInt.not_leb (by simpa using hle)

theorem scanStep_ok_tree {forIri : Bool} {full : List Char} {i : Nat} {c : Char}
    {stk : List Nat} {tree : RangeNode} {stk' : List Nat} {tree' : RangeNode}
    (h : scanStep forIri full i c stk tree = .ok (stk', tree')) :
    tree' = tree ∨ ∃ node, RangeNode.validB node = true ∧ node.childrenF = .nil ∧
      tree.insertChild node = .ok tree' := by
  cases forIri
  all_goals (
    simp only [scanStep] at h
    split at h
    · simp only [Except.ok.injEq, Prod.mk.injEq] at h
      exact Or.inl h.2.symm
    · split at h
      · split at h
        · simp only [Except.ok.injEq, Prod.mk.injEq] at h
          exact Or.inl h.2.symm
        · split at h
          · simp at h
          · next node hmk =>
            split at h
            · simp at h
            · next treeNew hins =>
              simp only [Except.ok.injEq, Prod.mk.injEq] at h
              obtain ⟨_, h2⟩ := h
              subst h2
              obtain ⟨hvn, hnil, _⟩ := mkRangeNode_props hmk
              exact Or.inr ⟨node, hvn, hnil, hins⟩
      · simp only [Except.ok.injEq, Prod.mk.injEq] at h
        exact Or.inl h.2.symm)

theorem scanStep_valid {forIri : Bool} {full : List Char} {i : Nat} {c : Char}
    {stk : List Nat} {tree : RangeNode} {stk' : List Nat} {tree' : RangeNode}
    (hv : RangeNode.validB tree = true)
    (h : scanStep forIri full i c stk tree = .ok (stk', tree')) :
    RangeNode.validB tree' = true := by
  rcases scanStep_ok_tree h with h1 | ⟨node, hvn, hnil, hins⟩
  · subst h1
    exact hv
  · exact (insertChild_valid tree node tree' hv hvn hnil hins).1

theorem scanChars_valid {forIri : Bool} {full : List Char} :
    ∀ (cs : List Char) (i : Nat) (stk : List Nat) (tree : RangeNode)
      (stk' : List Nat) (tree' : RangeNode),
    RangeNode.validB tree = true →
    scanChars forIri full i cs stk tree = .ok (stk', tree') →
    RangeNode.validB tree' = true := by
  intro cs
  induction cs with
  | nil =>
    intro i stk tree stk' tree' hv h
    rw [scanChars] at h
    simp only [Except.ok.injEq, Prod.mk.injEq] at h
    obtain ⟨_, h2⟩ := h
    subst h2
    exact hv
  | cons c rest ih =>
    intro i stk tree stk' tree' hv h
    rw [scanChars] at h
    split at h
    · simp at h
    · next stk1 tree1 hstep =>
      exact ih (i + 1) stk1 tree1 stk' tree' (scanStep_valid hv hstep) h

theorem parseByParenthesesGo_valid {s : String} {root t : RangeNode}
    {forIri : Bool} (hv : RangeNode.validB root = true)
    (h : parseByParenthesesGo forIri s root = .ok t) :
    RangeNode.validB t = true := by
  unfold parseByParenthesesGo at h
  split at h
  · simp at h
  · next stk tree hscan =>
    split at h
    · simp only [Except.ok.injEq] at h
      subst h
      exact scanChars_valid s.data 0 [] root _ tree hv hscan
    · simp at h

theorem parseByParentheses_valid {s : String} {t0 t : RangeNode} {forIri : Bool}
    (hv : RangeNode.validB t0 = true)
    (h : parseByParentheses s (some t0) forIri = .ok t) :
    RangeNode.validB t = true := by
  unfold parseByParentheses at h
  exact parseByParenthesesGo_valid hv h

theorem parseByParentheses_root_valid {s : String} {t : RangeNode} {forIri : Bool}
    (h : parseByParentheses s none forIri = .ok t) :
    RangeNode.validB t = true := by
  unfold parseByParentheses at h
  rcases hmk : mkRangeNode 0 .inf "Root" s false with e | root
  · rw [hmk] at h
    simp at h
  · rw [hmk] at h
    exact parseByParenthesesGo_valid (mkRangeNode_props hmk).1 h

/-- Every tree returned by `parse` is structurally valid. -/
theorem parse_valid {s : String} {t : RangeNode} (h : parse s = .ok t) :
    RangeNode.validB t = true := by
  unfold parse at h
  split at h
  · simp at h
  · next t1 hpass1 =>
    exact parseByParentheses_valid (parseByParentheses_root_valid hpass1) h

/-! ## Inserting a partially overlapping candidate is always a fatal error -/

theorem Except.isOk_ok {ε α : Type} (a : α) : (Except.ok a : Except ε α).isOk = true := rfl

theorem Except.isOk_error {ε α : Type} (e : ε) :
    (Except.error e : Except ε α).isOk = false := rfl

theorem not_overlap_of_contains {c d : Rg} (h : c.containsB d = true) :
    c.overlapViolB d = false := by
  simp [Rg.overlapViolB, Rg.nestedOrDisjointB, h]

theorem not_overlap_of_contains2 {c d : Rg} (h : d.containsB c = true) :
    c.overlapViolB d = false := by
  simp [Rg.overlapViolB, Rg.nestedOrDisjointB, h]

theorem not_overlap_of_disjoint {c d : Rg} (h : c.disjointB d = true) :
    c.overlapViolB d = false := by
  simp [Rg.overlapViolB, Rg.nestedOrDisjointB, h]

theorem insertLoopWith_overlap_err
    (f : RangeNode → RangeNode → Except String RangeNode)
    (hf : ∀ (a b : RangeNode) (d : Rg), RangeNode.validB a = true →
      d ∈ a.nodesRg → b.rg.overlapViolB d = true → (f a b).isOk = false) :
    ∀ (fo : RangeForest) (c : RangeNode) (d : Rg),
    (∀ u ∈ fo.toList, RangeNode.validB u = true) →
    pairwiseDisjointB (fo.toList.map RangeNode.rg) = true →
    d ∈ RangeForest.nodesRg fo →
    c.rg.overlapViolB d = true →
    (insertLoopWith f c fo).isOk = false
  | .nil => by
    intro c d hall hpw hd hov
    simp [RangeForest.nodesRg] at hd
  | .cons ch rest => by
    intro c d hall hpw hd hov
    have hvch : RangeNode.validB ch = true := hall ch (by simp [RangeForest.toList])
    have hallrest : ∀ u ∈ rest.toList, RangeNode.validB u = true :=
      fun u hu => hall u (by simp [RangeForest.toList]; exact Or.inr hu)
    have hpw' := hpw
    rw [RangeForest.toList, List.map_cons, pairwiseDisjointB_iff,
      List.pairwise_cons] at hpw'
    obtain ⟨hheadDisj, hpwrest⟩ := hpw'
    have hpwrest' : pairwiseDisjointB (rest.toList.map RangeNode.rg) = true := by
      rw [pairwiseDisjointB_iff]; exact hpwrest
    rw [RangeForest.nodesRg] at hd
    rw [insertLoopWith]
    split
    · exact Except.isOk_error _
    · next heq1 =>
      have hchc : ch.rg.containsB c.rg = true := rangeGt_isTrue heq1
      rcases List.mem_append.mp hd with hdch | hdrest
      · have hferr := hf ch c d hvch hdch hov
        split
        · exact Except.isOk_error _
        · next ch' heqf =>
          rw [heqf, Except.isOk_ok] at hferr
          exact absurd hferr (by simp)
      · exfalso
        obtain ⟨u, hu, hud⟩ := RangeForest.subtree_boundF rest hallrest d hdrest
        have hdisj : ch.rg.disjointB u.rg = true :=
          hheadDisj u.rg (List.mem_map.mpr ⟨u, hu, rfl⟩)
        have : c.rg.disjointB d = true := Rg.disjointB_mono hchc hud hdisj
        rw [not_overlap_of_disjoint this] at hov
        exact Bool.false_ne_true hov
    · next g1 hg1ne heq1 =>
      split
      · exact Except.isOk_error _
      · next heq2 =>
        have hcch : c.rg.containsB ch.rg = true := rangeGt_isTrue heq2
        rcases List.mem_append.mp hd with hdch | hdrest
        · exfalso
          have hchd : ch.rg.containsB d = true :=
            RangeNode.subtree_bound ch hvch d hdch
          have : c.rg.containsB d = true := Rg.containsB_trans hcch hchd
          rw [not_overlap_of_contains this] at hov
          exact Bool.false_ne_true hov
        · exact insertLoopWith_overlap_err f hf rest (c.appendChild ch) d
            hallrest hpwrest' hdrest (by rwa [RangeNode.appendChild_rg])
      · next g2 hg2ne heq2 =>
        have hkeep : c.rg.disjointB ch.rg = true :=
          keep_case_disjoint heq1 (fun h => hg1ne h) heq2 (fun h => hg2ne h)
        rcases List.mem_append.mp hd with hdch | hdrest
        · exfalso
          have hchd : ch.rg.containsB d = true :=
            RangeNode.subtree_bound ch hvch d hdch
          have : c.rg.disjointB d = true :=
            Rg.disjointB_mono (Rg.containsB_refl c.rg) hchd hkeep
          rw [not_overlap_of_disjoint this] at hov
          exact Bool.false_ne_true hov
        · have hinner := insertLoopWith_overlap_err f hf rest c d
            hallrest hpwrest' hdrest hov
          split
          · exact Except.isOk_error _
          · next ins2 out2 c2 heq3 =>
            rw [heq3, Except.isOk_ok] at hinner
            exact absurd hinner (by simp)

theorem insertChildFuel_overlap_err : ∀ (n : Nat) (t c : RangeNode) (d : Rg),
    RangeNode.validB t = true → d ∈ t.nodesRg → c.rg.overlapViolB d = true →
    (insertChildFuel n t c).isOk = false := by
  intro n
  induction n with
  | zero =>
    intro t c d _ _ _
    rw [insertChildFuel]
    exact Except.isOk_error _
  | succ n ih =>
    rintro ⟨rg, nm, tx, ii, cs⟩ c d hvt hd hov
    have hbound : rg.containsB d = true := RangeNode.subtree_bound _ hvt d hd
    have hvt' := hvt
    rw [RangeNode.validB_node_iff] at hvt'
    obtain ⟨hn, hcont, hpw, hvs⟩ := hvt'
    rw [RangeNode.nodesRg] at hd
    simp only [insertChildFuel]
    split
    · exact Except.isOk_error _
    · exact Except.isOk_error _
    · exact Except.isOk_error _
    · next heqGt =>
      have hcontained : Rg.containsB rg c.rg = true := (rangeGt_isFalse heqGt).2
      have hdno_root : d ≠ rg := by
        intro hEq
        subst hEq
        rw [not_overlap_of_contains2 hcontained] at hov
        exact Bool.false_ne_true hov
      have hdcs : d ∈ RangeForest.nodesRg cs := by
        rcases List.mem_cons.mp hd with h | h
        · exact absurd h hdno_root
        · exact h
      split
      · next hdup =>
        exfalso
        have hceq : c.rg = rg := by
          obtain ⟨h1, h2⟩ := hdup
          have h3 : c.rg = ⟨c.rg.start, c.rg.stop⟩ := rfl
          rw [h3, h1, h2]
        have hcd : c.rg.containsB d = true := by
          rw [hceq]
          exact hbound
        rw [not_overlap_of_contains hcd] at hov
        exact Bool.false_ne_true hov
      · split
        · simp [RangeForest.nodesRg] at hdcs
        · next ch rest =>
          have hloopErr := insertLoopWith_overlap_err (insertChildFuel n)
            (fun a b dd h1 h2 h3 => ih a b dd h1 h2 h3)
            (.cons ch rest) c d hvs hpw hdcs hov
          split
          · exact Except.isOk_error _
          · next heqL =>
            rw [heqL, Except.isOk_ok] at hloopErr
            exact absurd hloopErr (by simp)
          · next heqL =>
            rw [heqL, Except.isOk_ok] at hloopErr
            exact absurd hloopErr (by simp)

/-- Attempting to insert a candidate whose interval partially overlaps the
interval of any node of a valid tree is a fatal construction error. -/
theorem insertChild_overlap_err {t c : RangeNode} {d : Rg}
    (hvt : RangeNode.validB t = true) (hd : d ∈ t.nodesRg)
    (hov : c.rg.overlapViolB d = true) :
    (RangeNode.insertChild t c).isOk = false :=
  insertChildFuel_overlap_err t.sizeN t c d hvt hd hov

/-! ## Every node interval in a valid tree is non-empty -/

mutual
theorem RangeNode.nodes_nonempty : ∀ (t : RangeNode), RangeNode.validB t = true →
    ∀ r ∈ t.nodesRg, r.nonemptyB = true
  | .node rg nm tx ii cs, hv, r, hr => by
    rw [RangeNode.validB_node_iff] at hv
    obtain ⟨hn, _, _, hvs⟩ := hv
    rw [RangeNode.nodesRg] at hr
    rcases List.mem_cons.mp hr with h | h
    · subst h; exact hn
    · exact RangeForest.nodes_nonemptyF cs hvs r h

theorem RangeForest.nodes_nonemptyF : ∀ (f : RangeForest),
    (∀ u ∈ f.toList, RangeNode.validB u = true) →
    ∀ r ∈ RangeForest.nodesRg f, r.nonemptyB = true
  | .cons t ts, hvs, r, hr => by
    rw [RangeForest.nodesRg] at hr
    rcases List.mem_append.mp hr with h | h
    · exact RangeNode.nodes_nonempty t (hvs t (by simp [RangeForest.toList])) r h
    · exact RangeForest.nodes_nonemptyF ts
        (fun u hu => hvs u (by simp [RangeForest.toList]; exact Or.inr hu)) r h
end

/-! ## The pure bracket stack of a scanning pass -/

/-- The stack discipline of `parse_by_parentheses` in isolation: push on an
opening bracket, pop on a closing bracket (an unmatched closing bracket
leaves the stack empty and scanning continues). -/
def scanStackPure : Bool → Nat → List Char → List Nat → List Nat
  | _, _, [], stk => stk
  | false, i, c :: rest, stk =>
    if c = '(' then scanStackPure false (i + 1) rest (i :: stk)
    else if c = ')' then
      match stk with
      | [] => scanStackPure false (i + 1) rest []
      | _ :: stk' => scanStackPure false (i + 1) rest stk'
    else scanStackPure false (i + 1) rest stk
  | true, i, c :: rest, stk =>
    if c = '<' then scanStackPure true (i + 1) rest (i :: stk)
    else if c = '>' then
      match stk with
      | [] => scanStackPure true (i + 1) rest []
      | _ :: stk' => scanStackPure true (i + 1) rest stk'
    else scanStackPure true (i + 1) rest stk

theorem scanStep_stack {forIri : Bool} {full : List Char} {i : Nat} {c : Char}
    {stk : List Nat} {tree : RangeNode} {stk' : List Nat} {tree' : RangeNode}
    (h : scanStep forIri full i c stk tree = .ok (stk', tree')) :
    stk' = scanStackPure forIri i [c] stk := by
  cases forIri
  all_goals (
    simp only [scanStep] at h
    simp only [scanStackPure]
    split at h
    next hc =>
      rw [if_pos hc]
      simp only [Except.ok.injEq, Prod.mk.injEq] at h
      exact h.1.symm
    next hc =>
      rw [if_neg hc]
      split at h
      next hc2 =>
        rw [if_pos hc2]
        split at h
        · simp only [Except.ok.injEq, Prod.mk.injEq] at h
          exact h.1.symm
        · split at h
          · simp at h
          · split at h
            · simp at h
            · simp only [Except.ok.injEq, Prod.mk.injEq] at h
              exact h.1.symm
      next hc2 =>
        rw [if_neg hc2]
        simp only [Except.ok.injEq, Prod.mk.injEq] at h
        exact h.1.symm)

theorem scanStackPure_cons (forIri : Bool) (i : Nat) (c : Char) (rest : List Char)
    (stk : List Nat) :
    scanStackPure forIri i (c :: rest) stk =
      scanStackPure forIri (i + 1) rest (scanStackPure forIri i [c] stk) := by
  cases forIri
  all_goals (
    simp only [scanStackPure]
    split
    · rfl
    · split
      · match stk with
        | [] => rfl
        | _ :: _ => rfl
      · rfl)

theorem scanChars_stack {forIri : Bool} {full : List Char} :
    ∀ (cs : List Char) (i : Nat) (stk : List Nat) (tree : RangeNode)
      (stk' : List Nat) (tree' : RangeNode),
    scanChars forIri full i cs stk tree = .ok (stk', tree') →
    stk' = scanStackPure forIri i cs stk := by
  intro cs
  induction cs with
  | nil =>
    intro i stk tree stk' tree' h
    rw [scanChars] at h
    simp only [Except.ok.injEq, Prod.mk.injEq] at h
    rw [scanStackPure, ← h.1]
  | cons c rest ih =>
    intro i stk tree stk' tree' h
    rw [scanChars] at h
    split at h
    · simp at h
    · next stk1 tree1 hstep =>
      rw [scanStackPure_cons, ← scanStep_stack hstep]
      exact ih (i + 1) stk1 tree1 stk' tree' h

theorem parseByParenthesesGo_ok_stack {forIri : Bool} {s : String}
    {root t : RangeNode} (h : parseByParenthesesGo forIri s root = .ok t) :
    scanStackPure forIri 0 s.data [] = [] := by
  unfold parseByParenthesesGo at h
  split at h
  · simp at h
  · next stk tree hscan =>
    split at h
    · next heq =>
      rw [← scanChars_stack s.data 0 [] root _ tree hscan]
    · simp at h

theorem parseByParenthesesGo_stack_err {forIri : Bool} {s : String}
    {root : RangeNode} {stk : List Nat} {tree : RangeNode}
    (hscan : scanChars forIri s.data 0 s.data [] root = .ok (stk, tree))
    (hne : stk ≠ []) :
    parseByParenthesesGo forIri s root = .error "Too many opening parentheses" := by
  unfold parseByParenthesesGo
  rw [hscan]
  match stk, hne with
  | _ :: _, _ => rfl

deriving instance DecidableEq for Except

/-! ## Claim theorems: parser invariants -/

def fallbackRangeNode : RangeNode := .node ⟨0, .inf⟩ "Root@[0:inf]" "" false .nil

/-- Claim C1: every tree returned by `parse` satisfies the
no-partial-overlap invariant — for every pair of nodes, one interval fully
contains the other or the two are disjoint — and any attempt to insert a
candidate node whose interval partially overlaps the interval of any node of
a (structurally valid) tree is a fatal construction error, so no tree with a
partial overlap is ever produced. -/
theorem C1_no_partial_overlap_invariant :
    (∀ (s : String) (t : RangeNode), parse s = .ok t →
      t.noPartialOverlapB = true)
    ∧ (∀ (t c : RangeNode) (d : Rg), RangeNode.validB t = true →
        d ∈ t.nodesRg → c.rg.overlapViolB d = true →
        (RangeNode.insertChild t c).isOk = false) :=
  ⟨fun _ _ h => RangeNode.noPartialOverlap_of_valid (parse_valid h),
   fun _ c d hvt hd hov => insertChild_overlap_err hvt hd hov⟩

theorem C1_no_partial_overlap_invariant_witness :
    RangeNode.noPartialOverlapB ((parse "<a>").toOption.getD fallbackRangeNode) = true
    ∧ (RangeNode.insertChild ((parse "<a>").toOption.getD fallbackRangeNode)
        (.node ⟨1, .fin 5⟩ "X@[1:5]" "X" false .nil)).isOk = false :=
  ⟨C1_no_partial_overlap_invariant.1 "<a>" _ (by decide),
   C1_no_partial_overlap_invariant.2 _ (.node ⟨1, .fin 5⟩ "X@[1:5]" "X" false .nil)
     ⟨0, .fin 3⟩ (by decide) (by decide) (by decide)⟩

def c4child : RangeNode := .node ⟨1, .fin 3⟩ "A@[1:3]" "A" false .nil

def c4tree : RangeNode :=
  .node ⟨0, .inf⟩ "Root@[0:inf]" "" false (.cons c4child .nil)

/-- Claim C4 (code bug evidence): re-inserting a node whose interval exactly
matches an existing node is NOT a no-op — it raises
`RuntimeError("invalid child node")`, because `__gt__` returns `True` on
equal ranges, so `insert_child`'s recursion reaches the containment guard
before the (dead) duplicate check. -/
theorem C4_duplicate_insertion_raises :
    RangeNode.insertChild (.node ⟨0, .inf⟩ "Root@[0:inf]" "" false .nil) c4child
      = .ok c4tree
    ∧ RangeNode.insertChild c4tree c4child = .error "invalid child node"
    ∧ rangeGt c4child.rg c4child.rg = .ok .isTrue :=
  ⟨by decide, by decide, by decide⟩

/-- Claim C5 (amended): an input whose scanning pass would leave unmatched
opening brackets on the stack never yields a tree; when the scan itself
completes, the error is exactly `"Too many opening parentheses"` (a fatal
insertion error during the scan may abort earlier with a different message);
an unmatched closing bracket is non-fatal — the scan step leaves the state
unchanged and scanning continues. -/
theorem C5_unmatched_brackets :
    (∀ (s : String) (t : RangeNode), parse s = .ok t →
      scanStackPure false 0 (abbreviateOwlExpression s).data [] = []
      ∧ scanStackPure true 0 (abbreviateOwlExpression s).data [] = [])
    ∧ (∀ (forIri : Bool) (s : String) (root : RangeNode) (stk : List Nat)
        (tree : RangeNode),
        scanChars forIri s.data 0 s.data [] root = .ok (stk, tree) → stk ≠ [] →
        parseByParenthesesGo forIri s root = .error "Too many opening parentheses")
    ∧ (∀ (full : List Char) (i : Nat) (tree : RangeNode),
        scanStep false full i ')' [] tree = .ok ([], tree)
        ∧ scanStep true full i '>' [] tree = .ok ([], tree)) := by
  refine ⟨?_, ?_, ?_⟩
  · intro s t h
    unfold parse at h
    split at h
    · simp at h
    · next t1 hpass1 =>
      constructor
      · unfold parseByParentheses at hpass1
        rcases hmk : mkRangeNode 0 .inf "Root" (abbreviateOwlExpression s) false
          with e | root
        · rw [hmk] at hpass1
          simp at hpass1
        · rw [hmk] at hpass1
          exact parseByParenthesesGo_ok_stack hpass1
      · unfold parseByParentheses at h
        exact parseByParenthesesGo_ok_stack h
  · intro forIri s root stk tree hscan hne
    exact parseByParenthesesGo_stack_err hscan hne
  · intro full i tree
    exact ⟨rfl, rfl⟩

theorem C5_unmatched_brackets_witness :
    (scanStackPure false 0 (abbreviateOwlExpression "<a>").data [] = []
     ∧ scanStackPure true 0 (abbreviateOwlExpression "<a>").data [] = [])
    ∧ parseByParenthesesGo false "((" fallbackRangeNode
        = .error "Too many opening parentheses" :=
  ⟨C5_unmatched_brackets.1 "<a>" ((parse "<a>").toOption.getD fallbackRangeNode)
    (by decide),
   C5_unmatched_brackets.2.1 false "((" fallbackRangeNode [1, 0] fallbackRangeNode
    (by decide) (by decide)⟩

/-- Claim C5 counterexample: the input `"(()"` leaves an unmatched opening
bracket on the (pure) scanning stack, yet `parse` aborts with the
containment-violation message `"Compared ranges have a partial overlap."`,
not with `"Too many opening parentheses"` — the insertion error pre-empts
the end-of-scan stack check. -/
theorem C5_counterexample_early_insertion_error :
    parse "(()" = .error "Compared ranges have a partial overlap."
    ∧ scanStackPure false 0 (abbreviateOwlExpression "(()").data [] ≠ []
    ∧ ("Compared ranges have a partial overlap." : String)
        ≠ "Too many opening parentheses" :=
  ⟨by decide, by decide, by decide⟩

/-- Claim C10: `RangeNode.__init__` raises exactly when `start >= end`, so
no node with an empty interval can be constructed, and consequently every
node of every tree returned by `parse` (pass-2 identifier leaves included)
has a strictly non-empty interval `start < end`. -/
theorem C10_empty_intervals_rejected :
    (∀ (start : Int) (stop : XInt) (name text : String) (ii : Bool),
      (mkRangeNode start stop name text ii).isOk = false ↔
        XInt.leb stop (.fin start) = true)
    ∧ (∀ (start e : Int) (name text : String) (ii : Bool),
      (mkRangeNode start (.fin e) name text ii).isOk = false ↔ e ≤ start)
    ∧ (∀ (s : String) (t : RangeNode), parse s = .ok t →
        ∀ r ∈ t.nodesRg, r.nonemptyB = true) := by
  have h1 : ∀ (start : Int) (stop : XInt) (name text : String) (ii : Bool),
      (mkRangeNode start stop name text ii).isOk = false ↔
        XInt.leb stop (.fin start) = true := by
    intro start stop name text ii
    unfold mkRangeNode
    split
    · next hle => simp [Except.isOk_error, hle]
    · next hle =>
      rw [Except.isOk_ok]
      simp only [Bool.true_eq_false, false_iff]
      simpa using hle
  refine ⟨h1, ?_, ?_⟩
  · intro start e name text ii
    rw [h1 start (.fin e) name text ii]
    exact XInt.leb_fin_fin
  · intro s t h r hr
    exact RangeNode.nodes_nonempty t (parse_valid h) r hr

theorem C10_empty_intervals_rejected_witness :
    (mkRangeNode 5 (.fin 3) "x" "y" false).isOk = false
    ∧ (∀ r ∈ ((parse "<a>").toOption.getD fallbackRangeNode).nodesRg,
        r.nonemptyB = true) :=
  ⟨(C10_empty_intervals_rejected.2.1 5 3 "x" "y" false).mpr (by decide),
   C10_empty_intervals_rejected.2.2 "<a>" _ (by decide)⟩

/-! ## Claim theorems: verbaliser -/

def c2cfg : VerbCfg :=
  ⟨[("r", "r"), ("C1", "C1"), ("C2", "C2")], false, false, false, fun _ => false⟩

/-- Claim C2 (code bug evidence): on the exact input
`[AND]([EX.](<r><C1>) [EX.](<r><C2>))` verbalisation does not return
`"something that r C1 and C2"` — it fails outright, because the adjacent
half-open ranges of `<r>` and `<C1>` are misclassified as a partial overlap
by `__gt__`; and even with the adjacency avoided by a space, the junction
text keeps a leading space (`results["verbal"].lstrip()` discards its
result), so the output is `" something that r C1 and C2"`, not the spec's
`"something that r C1 and C2"`. -/
theorem C2_shared_property_junction_bug :
    (verbaliseClassExpression c2cfg 10
        (.inl "[AND]([EX.](<r><C1>) [EX.](<r><C2>))")).map V.verbal
      = .error "Compared ranges have a partial overlap."
    ∧ (verbaliseClassExpression c2cfg 10
        (.inl "[AND]([EX.](<r> <C1>) [EX.](<r> <C2>))")).map V.verbal
      = .ok " something that r C1 and C2"
    ∧ (" something that r C1 and C2" : String) ≠ "something that r C1 and C2" :=
  ⟨by decide, by decide, by decide⟩

def c7cfg (q : Bool) : VerbCfg :=
  ⟨[("http://x/B", "B"), ("http://x/r", "r"), ("http://x/C", "C")],
   false, false, q, fun _ => false⟩

def c7op : RangeNode := .node ⟨6, .fin 18⟩ "r@[6:18]" "<http://x/r>" true .nil

def c7filler : RangeNode :=
  .node ⟨19, .fin 31⟩ "C@[19:31]" "<http://x/C>" true .nil

def c7node : RangeNode :=
  .node ⟨1, .fin 32⟩ "EX.@[1:32]" "x" false (.cons c7op (.cons c7filler .nil))

/-- Claim C7: `[AND](<http://x/B> [EX.](<http://x/r> <http://x/C>))`
verbalises to exactly `"B that r C"` with quantifier words off and
`"B that r some C"` with them on; and in general a restriction with children
`[property, filler]` verbalises as `<property> [some|only] <filler>` — the
quantifier word (`some` for `EX.`, `only` for `ALL`) appears iff
`add_quantifier_word` is configured, with a `"something that "` prefix iff
the restriction is not being merged inside a junction. -/
theorem C7_restriction_quantifier_word :
    (verbaliseClassExpression (c7cfg false) 10
        (.inl "[AND](<http://x/B> [EX.](<http://x/r> <http://x/C>))")).map V.verbal
      = .ok "B that r C"
    ∧ (verbaliseClassExpression (c7cfg true) 10
        (.inl "[AND](<http://x/B> [EX.](<http://x/r> <http://x/C>))")).map V.verbal
      = .ok "B that r some C"
    ∧ (∀ (cfg : VerbCfg) (fuel : Nat) (node op filler : RangeNode)
        (addS : Bool) (v : V),
        node.children = [op, filler] →
        (strStartsWith node.name "EX." = true ∨ strStartsWith node.name "ALL" = true) →
        verbaliseRestriction cfg (fuel + 1) node addS = .ok v →
        ∃ cv, verbaliseClassExpression cfg fuel (.inl filler.text) = .ok cv ∧
          v.verbal = (if addS then "something that " else "") ++ lstripWs
            (if cfg.addQuantifierWord then
              (verbaliseProperty cfg op).verbal ++ " "
                ++ (if strStartsWith node.name "EX." then "some" else "only")
                ++ " " ++ cv.verbal
            else (verbaliseProperty cfg op).verbal ++ " " ++ cv.verbal)) := by
  refine ⟨by decide, by decide, ?_⟩
  intro cfg fuel node op filler addS v hch hex hok
  have hc : (strStartsWith node.name "EX." || strStartsWith node.name "ALL") = true := by
    rcases hex with h | h <;> simp [h]
  simp only [verbaliseRestriction] at hok
  rw [if_pos hc] at hok
  split at hok
  · next a b heq =>
    rw [hch] at heq
    simp only [List.cons.injEq, and_true] at heq
    obtain ⟨rfl, rfl⟩ := heq
    split at hok
    · next e he => simp at hok
    · next cv hcv =>
      refine ⟨cv, hcv, ?_⟩
      simp only [Except.ok.injEq] at hok
      subst hok
      simp only [V.verbal]
      cases addS <;> rfl
  · next h2 =>
    simp at hok

theorem C7_restriction_quantifier_word_witness :
    ∃ cv, verbaliseClassExpression (c7cfg true) 4 (.inl c7filler.text) = .ok cv ∧
      ((verbaliseRestriction (c7cfg true) 5 c7node true).toOption.getD
          (V.iri "" "")).verbal
        = (if true then "something that " else "") ++ lstripWs
          (if (c7cfg true).addQuantifierWord then
            (verbaliseProperty (c7cfg true) c7op).verbal ++ " "
              ++ (if strStartsWith c7node.name "EX." then "some" else "only")
              ++ " " ++ cv.verbal
          else (verbaliseProperty (c7cfg true) c7op).verbal ++ " " ++ cv.verbal) :=
  C7_restriction_quantifier_word.2.2 (c7cfg true) 4 c7node c7op c7filler true _
    rfl (Or.inl (by decide)) (by rfl)

def c8cfg : VerbCfg := ⟨[("http://x/r", "r")], false, false, false, fun _ => false⟩

def c8node : RangeNode :=
  .node ⟨19, .fin 37⟩ "X@[19:37]" "<http://unknown/X>" true .nil

/-- Claim C8: an identifier leaf whose stripped IRI has no vocabulary entry
verbalises without failing — the surface form falls back to the node's raw
text, the missing-name warning condition fires, and an enclosing
verbalisation still returns its result (concretely,
`[EX.](<http://x/r> <http://unknown/X>)` yields
`"something that r <http://unknown/X>"`). -/
theorem C8_missing_name_fallback :
    (∀ (cfg : VerbCfg) (node : RangeNode) (isProp : Bool),
      cfg.keepIri = false → cfg.applyAutoCorrection = false →
      vocabGet cfg.vocab
          (String.mk (rstripChar '>' (lstripChar '<' node.text.data))) = none →
      verbaliseIri cfg node isProp
          = .iri node.text
              (String.mk (rstripChar '>' (lstripChar '<' node.text.data)))
        ∧ verbaliseIriWarns cfg node = true)
    ∧ (verbaliseClassExpression c8cfg 10
        (.inl "[EX.](<http://x/r> <http://unknown/X>)")).map V.verbal
        = .ok "something that r <http://unknown/X>" := by
  refine ⟨?_, by decide⟩
  intro cfg node isProp hk hac hvg
  constructor
  · simp only [verbaliseIri, hk, hac, hvg]
    simp
  · simp only [verbaliseIriWarns, hk, hvg]
    simp

theorem C8_missing_name_fallback_witness :
    verbaliseIri c8cfg c8node false
        = .iri c8node.text
            (String.mk (rstripChar '>' (lstripChar '<' c8node.text.data)))
      ∧ verbaliseIriWarns c8cfg c8node = true :=
  C8_missing_name_fallback.1 c8cfg c8node false rfl rfl (by decide)

theorem axiomInputCheck_err (axm : OWLAxiomM) (l : List String)
    (h : getAxiomType axm ∉ l) :
    axiomInputCheck axm l
      = .error ("Input axiom type `" ++ getAxiomType axm ++ "` is not in "
          ++ pyListRepr l ++ ".") := by
  simp only [axiomInputCheck, if_neg h]

def cfgTriv : VerbCfg := ⟨[], true, false, false, fun _ => false⟩

def c6node : RangeNode :=
  .node ⟨1, .fin 9⟩ "EX.@[1:9]" "y" false
    (.cons (.node ⟨6, .fin 8⟩ "a@[6:8]" "a" true .nil) .nil)

def c6axm : OWLAxiomM := ⟨"Foo", "zz"⟩

/-- Claim C6: structural-shape failures are fatal with no partial result —
a restriction node without exactly two children makes `_verbalise_restriction`
fail with its structural error, and each of the seven axiom-level entry
points fails with the `_axiom_input_check` type-mismatch error whenever the
axiom's kind is outside that entry point's expected set. -/
theorem C6_structural_shape_errors :
    (∀ (cfg : VerbCfg) (fuel : Nat) (node : RangeNode) (addS : Bool),
      node.children.length ≠ 2 →
      verbaliseRestriction cfg (fuel + 1) node addS
        = .error "Input range node is not related to a existential or universal restriction statement.")
    ∧ (∀ (cfg : VerbCfg) (fuel : Nat) (axm : OWLAxiomM),
        getAxiomType axm ∉ ["SubClassOf", "SuperClassOf"] →
        verbaliseClassSubsumptionAxiom cfg fuel axm
          = .error ("Input axiom type `" ++ getAxiomType axm ++ "` is not in "
              ++ pyListRepr ["SubClassOf", "SuperClassOf"] ++ "."))
    ∧ (∀ (cfg : VerbCfg) (fuel : Nat) (axm : OWLAxiomM),
        getAxiomType axm ∉ ["EquivalentClasses"] →
        verbaliseClassEquivalenceAxiom cfg fuel axm
          = .error ("Input axiom type `" ++ getAxiomType axm ++ "` is not in "
              ++ pyListRepr ["EquivalentClasses"] ++ "."))
    ∧ (∀ (cfg : VerbCfg) (fuel : Nat) (axm : OWLAxiomM),
        getAxiomType axm ∉ ["ClassAssertion"] →
        verbaliseClassAssertionAxiom cfg fuel axm
          = .error ("Input axiom type `" ++ getAxiomType axm ++ "` is not in "
              ++ pyListRepr ["ClassAssertion"] ++ "."))
    ∧ (∀ (cfg : VerbCfg) (axm : OWLAxiomM),
        getAxiomType axm ∉ ["SubObjectPropertyOf", "SuperObjectPropertyOf",
          "SubPropertyChainOf", "SuperPropertyChainOf"] →
        verbaliseObjectPropertySubsumptionAxiom cfg axm
          = .error ("Input axiom type `" ++ getAxiomType axm ++ "` is not in "
              ++ pyListRepr ["SubObjectPropertyOf", "SuperObjectPropertyOf",
                  "SubPropertyChainOf", "SuperPropertyChainOf"] ++ "."))
    ∧ (∀ (cfg : VerbCfg) (axm : OWLAxiomM),
        getAxiomType axm ∉ ["ObjectPropertyAssertion"] →
        verbaliseObjectPropertyAssertionAxiom cfg axm
          = .error ("Input axiom type `" ++ getAxiomType axm ++ "` is not in "
              ++ pyListRepr ["ObjectPropertyAssertion"] ++ "."))
    ∧ (∀ (cfg : VerbCfg) (fuel : Nat) (axm : OWLAxiomM),
        getAxiomType axm ∉ ["ObjectPropertyDomain"] →
        verbaliseObjectPropertyDomainAxiom cfg fuel axm
          = .error ("Input axiom type `" ++ getAxiomType axm ++ "` is not in "
              ++ pyListRepr ["ObjectPropertyDomain"] ++ "."))
    ∧ (∀ (cfg : VerbCfg) (fuel : Nat) (axm : OWLAxiomM),
        getAxiomType axm ∉ ["ObjectPropertyRange"] →
        verbaliseObjectPropertyRangeAxiom cfg fuel axm
          = .error ("Input axiom type `" ++ getAxiomType axm ++ "` is not in "
              ++ pyListRepr ["ObjectPropertyRange"] ++ ".")) := by
  refine ⟨?_, ?_, ?_, ?_, ?_, ?_, ?_, ?_⟩
  · intro cfg fuel node addS hlen
    simp only [verbaliseRestriction]
    split
    · split
      · next a b h2 =>
        exact absurd (by rw [h2]; rfl) hlen
      · rfl
    · rfl
  · intro cfg fuel axm h
    simp only [verbaliseClassSubsumptionAxiom]
    rw [axiomInputCheck_err axm _ h]
  · intro cfg fuel axm h
    simp only [verbaliseClassEquivalenceAxiom]
    rw [axiomInputCheck_err axm _ h]
  · intro cfg fuel axm h
    simp only [verbaliseClassAssertionAxiom]
    rw [axiomInputCheck_err axm _ h]
  · intro cfg axm h
    simp only [verbaliseObjectPropertySubsumptionAxiom]
    rw [axiomInputCheck_err axm _ h]
  · intro cfg axm h
    simp only [verbaliseObjectPropertyAssertionAxiom]
    rw [axiomInputCheck_err axm _ h]
  · intro cfg fuel axm h
    simp only [verbaliseObjectPropertyDomainAxiom]
    rw [axiomInputCheck_err axm _ h]
  · intro cfg fuel axm h
    simp only [verbaliseObjectPropertyRangeAxiom]
    rw [axiomInputCheck_err axm _ h]

theorem C6_structural_shape_errors_witness :
    verbaliseRestriction cfgTriv 1 c6node false
      = .error "Input range node is not related to a existential or universal restriction statement."
    ∧ verbaliseClassSubsumptionAxiom cfgTriv 1 c6axm
      = .error ("Input axiom type `" ++ getAxiomType c6axm ++ "` is not in "
          ++ pyListRepr ["SubClassOf", "SuperClassOf"] ++ ".") :=
  ⟨C6_structural_shape_errors.1 cfgTriv 0 c6node false (by decide),
   C6_structural_shape_errors.2.1 cfgTriv 1 c6axm (by decide)⟩

/-! ## Junction grouping and ordering lemmas -/

/-- The `group_dict[key]` read-back of the property-keyed `defaultdict`. -/
def assocGet (d : List (String × List V)) (k : String) : List V :=
  match d with
  | [] => []
  | (k', xs) :: rest => if k' = k then xs else assocGet rest k

/-- A junction child that `_verbalise_junction` routes to a restriction
group rather than to `other_children`. -/
def isRestrictionChild (c : RangeNode) : Bool :=
  strStartsWith c.name "EX." || strStartsWith c.name "ALL"

theorem dictAppend_assocGet_same : ∀ (d : List (String × List V)) (k : String) (x : V),
    assocGet (dictAppend d k x) k = assocGet d k ++ [x]
  | [], k, x => by simp [dictAppend, assocGet]
  | (k', xs) :: rest, k, x => by
    by_cases hk : k' = k
    · subst hk
      simp [dictAppend, assocGet]
    · simp only [dictAppend, if_neg hk, assocGet]
      exact dictAppend_assocGet_same rest k x

theorem dictAppend_assocGet_other : ∀ (d : List (String × List V)) (k : String) (x : V)
    (k2 : String), k2 ≠ k → assocGet (dictAppend d k x) k2 = assocGet d k2
  | [], k, x, k2, h => by
    simp only [dictAppend, assocGet]
    rw [if_neg (fun hh => h hh.symm)]
  | (k', xs) :: rest, k, x, k2, h => by
    by_cases hk : k' = k
    · subst hk
      simp only [dictAppend, if_pos rfl, assocGet]
      rw [if_neg (fun hh => h hh.symm), if_neg (fun hh => h hh.symm)]
    · simp only [dictAppend, if_neg hk, assocGet]
      by_cases hk2 : k' = k2
      · rw [if_pos hk2, if_pos hk2]
      · rw [if_neg hk2, if_neg hk2, dictAppend_assocGet_other rest k x k2 h]

theorem collectJunction_others_spec (cfg : VerbCfg) :
    ∀ (fuel : Nat) (cs : List RangeNode) (exD allD : List (String × List V))
      (others : List V)
      (out : List (String × List V) × List (String × List V) × List V),
      collectJunction cfg fuel cs exD allD others = .ok out →
      ∃ newOthers, out.2.2 = others ++ newOthers
        ∧ newOthers.length = (cs.filter (fun c => !(isRestrictionChild c))).length
        ∧ ∀ (i : Nat) (v : V), newOthers.get? i = some v →
            ∃ fu c, (cs.filter (fun c => !(isRestrictionChild c))).get? i = some c
              ∧ verbaliseClassExpression cfg fu (.inr c) = .ok v := by
  intro fuel
  induction fuel with
  | zero =>
    intro cs exD allD others out h
    simp [collectJunction] at h
  | succ fuel ih =>
    intro cs exD allD others out h
    cases cs with
    | nil =>
      simp only [collectJunction, Except.ok.injEq] at h
      subst h
      refine ⟨[], by simp, by simp, ?_⟩
      intro i v hv
      simp at hv
    | cons child rest =>
      simp only [collectJunction] at h
      by_cases hEx : strStartsWith child.name "EX." = true
      · rw [if_pos hEx] at h
        split at h
        · simp at h
        · next r hr =>
          obtain ⟨no, h1, h2, h3⟩ := ih rest _ allD others out h
          have hf : (child :: rest).filter (fun c => !(isRestrictionChild c))
              = rest.filter (fun c => !(isRestrictionChild c)) := by
            simp [List.filter, isRestrictionChild, hEx]
          exact ⟨no, h1, by rw [hf]; exact h2, by rw [hf]; exact h3⟩
      · rw [if_neg hEx] at h
        by_cases hAll : strStartsWith child.name "ALL" = true
        · rw [if_pos hAll] at h
          split at h
          · simp at h
          · next r hr =>
            obtain ⟨no, h1, h2, h3⟩ := ih rest exD _ others out h
            have hf : (child :: rest).filter (fun c => !(isRestrictionChild c))
                = rest.filter (fun c => !(isRestrictionChild c)) := by
              simp [List.filter, isRestrictionChild, hAll]
            exact ⟨no, h1, by rw [hf]; exact h2, by rw [hf]; exact h3⟩
        · rw [if_neg hAll] at h
          split at h
          · simp at h
          · next v0 hv0 =>
            obtain ⟨no, h1, h2, h3⟩ := ih rest exD allD (others ++ [v0]) out h
            have hf : (child :: rest).filter (fun c => !(isRestrictionChild c))
                = child :: rest.filter (fun c => !(isRestrictionChild c)) := by
              have hb1 : strStartsWith child.name "EX." = false := by
                simpa using hEx
              have hb2 : strStartsWith child.name "ALL" = false := by
                simpa using hAll
              simp [List.filter, isRestrictionChild, hb1, hb2]
            refine ⟨v0 :: no, ?_, ?_, ?_⟩
            · rw [h1]
              simp
            · rw [hf]
              simp [h2]
            · intro i v hv
              cases i with
              | zero =>
                simp only [List.get?, Option.some.injEq] at hv
                subst hv
                exact ⟨fuel, child, by rw [hf]; simp, hv0⟩
              | succ j =>
                simp only [List.get?] at hv
                obtain ⟨fu, c, hc1, hc2⟩ := h3 j v hv
                refine ⟨fu, c, ?_, hc2⟩
                rw [hf]
                simpa using hc1

theorem verbaliseJunction_structure (cfg : VerbCfg) (fuel : Nat) (node : RangeNode)
    (v : V) (h : verbaliseJunction cfg (fuel + 1) node = .ok v) :
    ∃ exD allD others merged,
      collectJunction cfg fuel node.children [] [] [] = .ok (exD, allD, others)
      ∧ mergeGroups (if strStartsWith node.name "AND" then "and" else "or")
          (strTake node.name 3) (exD.map Prod.snd ++ allD.map Prod.snd) = .ok merged
      ∧ v.classesF = others ++ merged
      ∧ v.tyF = strTake node.name 3 := by
  simp only [verbaliseJunction] at h
  split at h
  · split at h
    · simp at h
    · next exD allD others hcol =>
      split at h
      · simp at h
      · next merged hmer =>
        simp only [Except.ok.injEq] at h
        subst h
        exact ⟨exD, allD, others, merged, hcol, hmer, rfl, rfl⟩
  · simp at h

def c3cfg : VerbCfg :=
  ⟨[("http://x/r", "r"), ("http://x/A", "A"), ("http://x/s", "s"),
    ("http://x/B", "B")], false, false, false, fun _ => false⟩

/-- Claim C3 counterexample: for
`[AND]([ALL](<http://x/r> <http://x/A>) [EX.](<http://x/s> <http://x/B>))`
the parsed junction's children are the `ALL` node first and the `EX.` node
second, yet the verbalised output is `" something that s B and r A"` — the
merged existential group precedes the merged universal group, so merged
groups do not preserve the original left-to-right order of the tree. -/
theorem C3_counterexample_merged_group_order :
    (verbaliseClassExpression c3cfg 10
        (.inl "[AND]([ALL](<http://x/r> <http://x/A>) [EX.](<http://x/s> <http://x/B>))")).map
        V.verbal
      = .ok " something that s B and r A"
    ∧ (((parseTopLevel
          "[AND]([ALL](<http://x/r> <http://x/A>) [EX.](<http://x/s> <http://x/B>))").toOption.getD
          fallbackRangeNode).children.map (fun c => strTake c.name 3))
      = ["ALL", "EX."] :=
  ⟨by decide, by decide⟩

/-- Claim C3 (amended): junction verbalisation is deterministic, restriction
children are grouped by the exact verbalised property string — appending to
`group_dict[key]` extends exactly that key's list, in insertion order — with
existential and universal restrictions grouped in separate dictionaries, and
the `"other"` (non-restriction) children appear in the output in their
original left-to-right tree order; the merged groups, however, appear after
the `"other"` children as all existential groups followed by all universal
groups (`ex_dict` then `all_dict`), not in tree order. -/
theorem C3_junction_grouping_determinism :
    (∀ (d : List (String × List V)) (k : String) (x : V),
      assocGet (dictAppend d k x) k = assocGet d k ++ [x]
      ∧ ∀ (k2 : String), k2 ≠ k → assocGet (dictAppend d k x) k2 = assocGet d k2)
    ∧ (∀ (cfg : VerbCfg) (fuel : Nat) (child : RangeNode) (rest : List RangeNode)
        (exD allD : List (String × List V)) (others : List V)
        (out : List (String × List V) × List (String × List V) × List V),
        strStartsWith child.name "EX." = true →
        collectJunction cfg (fuel + 1) (child :: rest) exD allD others = .ok out →
        ∃ r, verbaliseRestriction cfg fuel child false = .ok r ∧
          collectJunction cfg fuel rest (dictAppend exD r.propertyF.verbal r)
            allD others = .ok out)
    ∧ (∀ (cfg : VerbCfg) (fuel : Nat) (cs : List RangeNode)
        (exD allD : List (String × List V)) (others : List V)
        (out : List (String × List V) × List (String × List V) × List V),
        collectJunction cfg fuel cs exD allD others = .ok out →
        ∃ newOthers, out.2.2 = others ++ newOthers
          ∧ newOthers.length = (cs.filter (fun c => !(isRestrictionChild c))).length
          ∧ ∀ (i : Nat) (v : V), newOthers.get? i = some v →
              ∃ fu c, (cs.filter (fun c => !(isRestrictionChild c))).get? i = some c
                ∧ verbaliseClassExpression cfg fu (.inr c) = .ok v)
    ∧ (∀ (cfg : VerbCfg) (fuel : Nat) (node : RangeNode) (v : V),
        verbaliseJunction cfg (fuel + 1) node = .ok v →
        ∃ exD allD others merged,
          collectJunction cfg fuel node.children [] [] [] = .ok (exD, allD, others)
          ∧ mergeGroups (if strStartsWith node.name "AND" then "and" else "or")
              (strTake node.name 3) (exD.map Prod.snd ++ allD.map Prod.snd)
            = .ok merged
          ∧ v.classesF = others ++ merged
          ∧ v.tyF = strTake node.name 3) := by
  refine ⟨?_, ?_, ?_, ?_⟩
  · intro d k x
    exact ⟨dictAppend_assocGet_same d k x,
      fun k2 h => dictAppend_assocGet_other d k x k2 h⟩
  · intro cfg fuel child rest exD allD others out hEx hok
    simp only [collectJunction] at hok
    rw [if_pos hEx] at hok
    split at hok
    · simp at hok
    · next r hr => exact ⟨r, hr, hok⟩
  · intro cfg fuel cs exD allD others out hok
    exact collectJunction_others_spec cfg fuel cs exD allD others out hok
  · intro cfg fuel node v hok
    exact verbaliseJunction_structure cfg fuel node v hok

def c3junction : RangeNode :=
  (parseTopLevel
    "[AND]([ALL](<http://x/r> <http://x/A>) [EX.](<http://x/s> <http://x/B>))").toOption.getD
    fallbackRangeNode

def c3result : V :=
  (verbaliseJunction c3cfg 10 c3junction).toOption.getD (V.iri "" "")

theorem C3_junction_grouping_determinism_witness :
    (assocGet (dictAppend [] "r" (V.iri "r" "r")) "r"
        = assocGet ([] : List (String × List V)) "r" ++ [V.iri "r" "r"]
      ∧ assocGet (dictAppend [] "r" (V.iri "r" "r")) "s"
        = assocGet ([] : List (String × List V)) "s")
    ∧ (∃ exD allD others merged,
        collectJunction c3cfg 9 c3junction.children [] [] [] = .ok (exD, allD, others)
        ∧ mergeGroups (if strStartsWith c3junction.name "AND" then "and" else "or")
            (strTake c3junction.name 3) (exD.map Prod.snd ++ allD.map Prod.snd)
          = .ok merged
        ∧ c3result.classesF = others ++ merged
        ∧ c3result.tyF = strTake c3junction.name 3) :=
  ⟨⟨(C3_junction_grouping_determinism.1 [] "r" (V.iri "r" "r")).1,
    (C3_junction_grouping_determinism.1 [] "r" (V.iri "r" "r")).2 "s" (by decide)⟩,
   C3_junction_grouping_determinism.2.2.2 c3cfg 9 c3junction c3result (by rfl)⟩

/-! ## Occurrence lemmas for the abbreviator -/

theorem infix_append_cases {k u w : List Char} (h : k <:+: u ++ w) :
    k <:+: u ∨ k <:+: w ∨
      ∃ a c, k = a ++ c ∧ a ≠ [] ∧ c ≠ [] ∧ a <:+ u ∧ c <+: w := by
  obtain ⟨s, t, hst⟩ := h
  rw [List.append_assoc] at hst
  rcases List.append_eq_append_iff.mp hst with ⟨a2, ha1, ha2⟩ | ⟨c2, hc1, hc2⟩
  · rcases List.append_eq_append_iff.mp ha2 with ⟨b2, hb1, hb2⟩ | ⟨d2, hd1, hd2⟩
    · left
      exact ⟨s, b2, by rw [ha1, hb1, List.append_assoc]⟩
    · by_cases hA : a2 = []
      · right; left
        subst hA
        simp only [List.nil_append] at hd1
        exact ⟨[], t, by rw [hd1, hd2]; simp⟩
      · by_cases hC : d2 = []
        · left
          subst hC
          simp only [List.append_nil] at hd1
          exact ⟨s, [], by rw [hd1, ha1]; simp⟩
        · right; right
          exact ⟨a2, d2, hd1, hA, hC, ⟨s, ha1.symm⟩, ⟨t, hd2.symm⟩⟩
  · right; left
    exact ⟨c2, t, by rw [hc2]; simp [List.append_assoc]⟩

theorem suffix_getLast_mem {a r : List Char} {ch : Char} (hs : a <:+ r) (hne : a ≠ [])
    (hlast : r.getLast? = some ch) : ch ∈ a := by
  obtain ⟨pre, hpre⟩ := hs
  rcases List.eq_nil_or_concat a with h | ⟨L, b, hb⟩
  · exact absurd h hne
  · subst hb
    rw [← hpre, List.concat_eq_append, ← List.append_assoc,
      List.getLast?_concat] at hlast
    simp only [Option.some.injEq] at hlast
    subst hlast
    simp

theorem prefix_head_mem {c w : List Char} {ch : Char} (hp : c <+: w) (hne : c ≠ [])
    (hhead : w.head? = some ch) : ch ∈ c := by
  obtain ⟨t, ht⟩ := hp
  cases c with
  | nil => exact absurd rfl hne
  | cons x xs =>
    rw [← ht] at hhead
    simp only [List.cons_append, List.head?_cons, Option.some.injEq] at hhead
    subst hhead
    simp

theorem replaceGo_prefix {p r : List Char} (hrh : r.head? = some '[') :
    ∀ (n : Nat) (s q : List Char), '[' ∉ q → q <+: replaceGo p r n s → q <+: s := by
  intro n
  induction n with
  | zero =>
    intro s q hq h
    cases s with
    | nil => simpa [replaceGo] using h
    | cons c rest => simpa [replaceGo] using h
  | succ n ih =>
    intro s q hq h
    cases s with
    | nil => simpa [replaceGo] using h
    | cons c rest =>
      simp only [replaceGo] at h
      split at h
      · cases q with
        | nil => exact List.nil_prefix
        | cons qc qt =>
          cases r with
          | nil => simp at hrh
          | cons rc rt =>
            simp only [List.head?_cons, Option.some.injEq] at hrh
            rw [List.cons_append, List.cons_prefix_cons] at h
            exact absurd (by simp [h.1, hrh] : '[' ∈ qc :: qt) hq
      · cases q with
        | nil => exact List.nil_prefix
        | cons qc qt =>
          rw [List.cons_prefix_cons] at h
          obtain ⟨rfl, h2⟩ := h
          have h3 := ih rest qt (fun hm => hq (List.mem_cons_of_mem _ hm)) h2
          exact List.cons_prefix_cons.mpr ⟨rfl, h3⟩

theorem replaceGo_no_self {p r : List Char}
    (hpbr1 : '[' ∉ p) (hpbr2 : ']' ∉ p)
    (hrh : r.head? = some '[') (hrl : r.getLast? = some ']')
    (hlen : r.length < p.length) :
    ∀ (n : Nat) (s : List Char), s.length ≤ n → ¬ p <:+: replaceGo p r n s := by
  have hpne : p ≠ [] := by
    intro hp
    rw [hp] at hlen
    simp at hlen
  intro n
  induction n with
  | zero =>
    intro s hs h
    have hsn : s = [] := List.eq_nil_of_length_eq_zero (Nat.le_zero.mp hs)
    subst hsn
    simp only [replaceGo] at h
    rw [List.infix_nil] at h
    exact hpne h
  | succ n ih =>
    intro s hs h
    cases s with
    | nil =>
      simp only [replaceGo] at h
      rw [List.infix_nil] at h
      exact hpne h
    | cons c rest =>
      have hrest : rest.length ≤ n := by simpa using hs
      simp only [replaceGo] at h
      split at h
      · rcases infix_append_cases h with h1 | h1 | ⟨a, cc, hk, hane, _, hsuf, _⟩
        · have := h1.length_le
          omega
        · refine ih _ ?_ h1
          rw [List.length_drop]
          omega
        · refine hpbr2 ?_
          rw [hk]
          exact List.mem_append_left _ (suffix_getLast_mem hsuf hane hrl)
      · next hcond =>
        rw [List.infix_cons_iff] at h
        rcases h with h1 | h1
        · rcases List.prefix_cons_iff.mp h1 with hnil | ⟨pt, hp, h2⟩
          · exact hpne hnil
          · have hpt : '[' ∉ pt := fun hm =>
              hpbr1 (by rw [hp]; exact List.mem_cons_of_mem _ hm)
            have h3 := replaceGo_prefix hrh n rest pt hpt h2
            refine hcond ?_
            rw [List.isPrefixOf_iff_prefix, hp]
            exact List.cons_prefix_cons.mpr ⟨rfl, h3⟩
        · exact ih rest hrest h1

theorem replaceGo_preserve {p r k : List Char}
    (hkbr1 : '[' ∉ k) (hkbr2 : ']' ∉ k)
    (hrh : r.head? = some '[') (hrl : r.getLast? = some ']')
    (hlen : r.length < k.length) :
    ∀ (n : Nat) (s : List Char), ¬ k <:+: s → ¬ k <:+: replaceGo p r n s := by
  have hkne : k ≠ [] := by
    intro hk
    rw [hk] at hlen
    simp at hlen
  intro n
  induction n with
  | zero =>
    intro s habs h
    cases s with
    | nil =>
      simp only [replaceGo] at h
      rw [List.infix_nil] at h
      exact hkne h
    | cons c rest =>
      simp only [replaceGo] at h
      exact habs h
  | succ n ih =>
    intro s habs h
    cases s with
    | nil =>
      simp only [replaceGo] at h
      rw [List.infix_nil] at h
      exact hkne h
    | cons c rest =>
      have habs2 : ¬ k <:+: rest := fun hi =>
        habs (hi.trans (List.suffix_cons c rest).isInfix)
      simp only [replaceGo] at h
      split at h
      · rcases infix_append_cases h with h1 | h1 | ⟨a, cc, hk, hane, _, hsuf, _⟩
        · have := h1.length_le
          omega
        · refine ih _ ?_ h1
          intro hi
          exact habs2 (hi.trans (List.drop_suffix _ _).isInfix)
        · refine hkbr2 ?_
          rw [hk]
          exact List.mem_append_left _ (suffix_getLast_mem hsuf hane hrl)
      · rw [List.infix_cons_iff] at h
        rcases h with h1 | h1
        · rcases List.prefix_cons_iff.mp h1 with hnil | ⟨kt, hkt, h2⟩
          · exact hkne hnil
          · have hpt : '[' ∉ kt := fun hm =>
              hkbr1 (by rw [hkt]; exact List.mem_cons_of_mem _ hm)
            have h3 := replaceGo_prefix hrh n rest kt hpt h2
            refine habs ?_
            refine List.IsPrefix.isInfix ?_
            rw [hkt]
            exact List.cons_prefix_cons.mpr ⟨rfl, h3⟩
        · exact ih rest habs2 h1

theorem foldl_replace_preserve {k : List Char}
    (hkbr1 : '[' ∉ k) (hkbr2 : ']' ∉ k) :
    ∀ (entries : List (String × String)) (acc : List Char),
      (∀ kv ∈ entries, kv.2.data.head? = some '[' ∧ kv.2.data.getLast? = some ']'
        ∧ kv.2.data.length < k.length) →
      ¬ k <:+: acc →
      ¬ k <:+: entries.foldl
          (fun a kv => replaceAllChars a kv.1.data kv.2.data) acc := by
  intro entries
  induction entries with
  | nil =>
    intro acc _ habs h
    exact habs (by simpa using h)
  | cons kv es ih =>
    intro acc hcond habs
    rw [List.foldl_cons]
    refine ih _ (fun kv2 hm => hcond kv2 (List.mem_cons_of_mem _ hm)) ?_
    obtain ⟨h1, h2, h3⟩ := hcond kv (List.mem_cons_self _ _)
    rcases hpp : kv.1.data with _ | ⟨pc, pt⟩
    · simpa [replaceAllChars] using habs
    · simp only [replaceAllChars]
      exact replaceGo_preserve hkbr1 hkbr2 h1 h2 h3 _ _ habs

theorem abbreviate_removes_keys (s : String) (kv : String × String)
    (hkv : kv ∈ ABBREVIATION_DICT) :
    ¬ kv.1.data <:+: (abbreviateOwlExpression s).data := by
  have hall : ∀ kv2 ∈ ABBREVIATION_DICT,
      '[' ∉ (kv2.1 : String).data ∧ ']' ∉ (kv2.1 : String).data
      ∧ (kv2.2 : String).data.head? = some '['
      ∧ (kv2.2 : String).data.getLast? = some ']'
      ∧ (kv2.2 : String).data.length = 5
      ∧ 5 < (kv2.1 : String).data.length := by decide
  obtain ⟨h1, h2, h3, h4, h5, h6⟩ := hall kv hkv
  obtain ⟨pre, post, hsplit⟩ := List.append_of_mem hkv
  simp only [abbreviateOwlExpression]
  rw [hsplit, List.foldl_append, List.foldl_cons]
  refine foldl_replace_preserve h1 h2 post _ ?_ ?_
  · intro kv2 hm
    have hm2 : kv2 ∈ ABBREVIATION_DICT := by
      rw [hsplit]
      exact List.mem_append_right _ (List.mem_cons_of_mem _ hm)
    obtain ⟨_, _, g3, g4, g5, _⟩ := hall kv2 hm2
    exact ⟨g3, g4, by omega⟩
  · revert h1 h2 h6
    generalize kv.1.data = p
    intro h1 h2 h6
    cases p with
    | nil => simp at h6
    | cons pc pt =>
      simp only [replaceAllChars]
      refine replaceGo_no_self h1 h2 h3 h4 (by omega) _ _ (Nat.le_refl _)

/-- Claim C9: the abbreviator is a total function; every `ABBREVIATION_DICT`
tag is exactly 5 characters, bracket-delimited, and a keyword alone
abbreviates to exactly its tag; no tag is a substring of another (distinct)
tag; and for every input string no recognized operator keyword survives in
the output of `abbreviate_owl_expression` — every occurrence is replaced. -/
theorem C9_abbreviation_tag_properties :
    (∀ kv ∈ ABBREVIATION_DICT, (kv.2 : String).data.length = 5
      ∧ (kv.2 : String).data.head? = some '['
      ∧ (kv.2 : String).data.getLast? = some ']'
      ∧ abbreviateOwlExpression kv.1 = kv.2)
    ∧ (∀ kv1 ∈ ABBREVIATION_DICT, ∀ kv2 ∈ ABBREVIATION_DICT,
        kv1.2 ≠ kv2.2 → ¬ (kv1.2 : String).data <:+: (kv2.2 : String).data)
    ∧ (∀ (s : String) (kv : String × String), kv ∈ ABBREVIATION_DICT →
        ¬ (kv.1 : String).data <:+: (abbreviateOwlExpression s).data) :=
  ⟨by decide, by decide, fun s kv hkv => abbreviate_removes_keys s kv hkv⟩

theorem C9_abbreviation_tag_properties_witness :
    ¬ ("ObjectSomeValuesFrom" : String).data <:+:
      (abbreviateOwlExpression "ObjectSomeValuesFrom(<a> <b>)").data :=
  C9_abbreviation_tag_properties.2.2 "ObjectSomeValuesFrom(<a> <b>)"
    ("ObjectSomeValuesFrom", "[EX.]") (by decide)
